import Mathlib

/-!
Verification of the SCIM property model and projection-aware JSON serializer.

This file gives a shallow embedding, in Lean 4, of the core of the go-scim
resource server: the multi-valued property container (`pkg/core/prop/multi.go`)
and the JSON serializer with projection semantics (the `json` package source).
Go strings are modelled as lists of bytes (`List Nat`, each < 256), Go `uint64`
arithmetic as `Nat` arithmetic taken modulo `2^64`, Go `interface{}` values as
the inductive `Value`, and Go panics / error returns as `Except` / explicit
result constructors.  Parts of the repository that the source slice only calls
into (the `errors` constructors, compiled attribute paths, the visitor driver)
are modelled from the specification and are marked as such in doc comments.
-/

set_option maxRecDepth 16000

namespace Scim

/-- Error kinds of the transport-agnostic error table in the specification
(section 7).  Modelled from the spec: the `errors` package itself is not part
of the source slice; each constructor function `errors.X(...)` is modelled as
producing an error of kind `X`. -/
inductive ErrKind where
  | invalidSyntax
  | invalidValue
  | invalidPath
  | invalidRequest
  | noTarget
  | mutabilityViolation
  | uniqueness
  | preConditionFailed
  | incompatibleOperation
  | internal
deriving DecidableEq, Repr

/-- Error value: a kind plus a rendered message. -/
structure Err where
  kind : ErrKind
  msg : String
deriving DecidableEq, Repr

/-- Decidable equality for `Except` results, so concrete runs can be checked
by `decide`. -/
instance {α β : Type} [DecidableEq α] [DecidableEq β] : DecidableEq (Except α β) := fun x y =>
  match x, y with
  | .ok a, .ok b =>
    if h : a = b then .isTrue (by rw [h]) else .isFalse (by intro hc; cases hc; exact h rfl)
  | .error a, .error b =>
    if h : a = b then .isTrue (by rw [h]) else .isFalse (by intro hc; cases hc; exact h rfl)
  | .ok _, .error _ => .isFalse (by intro hc; cases hc)
  | .error _, .ok _ => .isFalse (by intro hc; cases hc)

/-- Constructor modelling `errors.Internal(format, args...)`. -/
def Err.internalErr (msg : String) : Err := ⟨.internal, msg⟩

/-- Constructor modelling `errors.InvalidRequest(format, args...)`. -/
def Err.invalidRequestErr (msg : String) : Err := ⟨.invalidRequest, msg⟩

/-- Constructor modelling `errors.InvalidValue(format, args...)`. -/
def Err.invalidValueErr (msg : String) : Err := ⟨.invalidValue, msg⟩

/-- Constructor modelling `errors.NoTarget(format, args...)`. -/
def Err.noTargetErr (msg : String) : Err := ⟨.noTarget, msg⟩

/-- Constructor modelling `errors.InvalidPath(format, args...)`. -/
def Err.invalidPathErr (msg : String) : Err := ⟨.invalidPath, msg⟩

/-- Attribute data types (`core.Type...` constants). -/
inductive SType where
  | string
  | integer
  | decimal
  | boolean
  | reference
  | dateTime
  | binary
  | complex
deriving DecidableEq, Repr

/-- Mutability dispositions (`core.Mutability...` constants). -/
inductive Mutability where
  | readOnly
  | readWrite
  | immutable
  | writeOnly
deriving DecidableEq, Repr

/-- Returned dispositions (`core.Returned...` constants). -/
inductive Returned where
  | always
  | default
  | request
  | never
deriving DecidableEq, Repr

/-- Uniqueness dispositions. -/
inductive Uniqueness where
  | none
  | server
  | global
deriving DecidableEq, Repr

/-- UTF-8 encoding of one code point, used to build byte strings for tests and
to state results about the serializer's byte output. -/
def utf8EncodeChar (c : Nat) : List Nat :=
  if c < 0x80 then [c]
  else if c < 0x800 then [0xC0 + c / 64, 0x80 + c % 64]
  else if c < 0x10000 then [0xE0 + c / 4096, 0x80 + (c / 64) % 64, 0x80 + c % 64]
  else [0xF0 + c / 0x40000, 0x80 + (c / 4096) % 64, 0x80 + (c / 64) % 64, 0x80 + c % 64]

/-- Byte list of a Lean string literal (Go strings are byte slices holding
UTF-8 text). -/
def strBytes (s : String) : List Nat :=
  (s.data.map Char.toNat).flatMap utf8EncodeChar

/-- Lower-casing of an ASCII byte, used for case-insensitive canonicalization
and name comparison. -/
def lowerByte (b : Nat) : Nat :=
  if 0x41 ≤ b ∧ b ≤ 0x5A then b + 0x20 else b

/-- Case-insensitive byte string comparison (models `strings.EqualFold` on the
ASCII attribute names used in paths). -/
def eqFold (a b : List Nat) : Bool :=
  a.map lowerByte == b.map lowerByte

/-- Digits of the `hex` table `"0123456789abcdef"` used by the serializer's
string escaper. -/
def hexDigit (n : Nat) : Nat :=
  if n < 10 then 0x30 + n else 0x61 + (n - 10)

/-- Schema attribute (`core.Attribute`).  Immutable metadata; the stable
attribute ID is a dotted path including the schema URN.  `subAttributes`
forces this to be an inductive rather than a structure. -/
inductive Attribute where
  | mk (idBytes : List Nat) (nameBytes : List Nat) (typ : SType)
       (multiValued : Bool) (required : Bool) (caseExact : Bool)
       (mutability : Mutability) (returned : Returned)
       (uniqueness : Uniqueness) (subAttributes : List Attribute)

/-- Stable attribute ID (`Attribute.ID()`), as bytes. -/
def Attribute.idBytes : Attribute → List Nat
  | .mk i _ _ _ _ _ _ _ _ _ => i

/-- Simple attribute name used in JSON output (`Attribute.Name()`). -/
def Attribute.nameBytes : Attribute → List Nat
  | .mk _ n _ _ _ _ _ _ _ _ => n

/-- Attribute data type (`Attribute.Type()`). -/
def Attribute.typ : Attribute → SType
  | .mk _ _ t _ _ _ _ _ _ _ => t

/-- MultiValued flag (`Attribute.MultiValued()`). -/
def Attribute.multiValued : Attribute → Bool
  | .mk _ _ _ m _ _ _ _ _ _ => m

/-- Required flag. -/
def Attribute.required : Attribute → Bool
  | .mk _ _ _ _ r _ _ _ _ _ => r

/-- CaseExact flag. -/
def Attribute.caseExact : Attribute → Bool
  | .mk _ _ _ _ _ c _ _ _ _ => c

/-- Mutability disposition (`Attribute.Mutability()`). -/
def Attribute.mutability : Attribute → Mutability
  | .mk _ _ _ _ _ _ m _ _ _ => m

/-- Returned disposition (`Attribute.Returned()`). -/
def Attribute.returned : Attribute → Returned
  | .mk _ _ _ _ _ _ _ r _ _ => r

/-- Uniqueness disposition. -/
def Attribute.uniqueness : Attribute → Uniqueness
  | .mk _ _ _ _ _ _ _ _ u _ => u

/-- Sub-attributes of a complex attribute, in declared order. -/
def Attribute.subAttributes : Attribute → List Attribute
  | .mk _ _ _ _ _ _ _ _ _ s => s

/-- Per-element attribute of a multi-valued attribute
(`Attribute.NewElementAttribute`): same attribute with `multiValued = false`.
Element attribute IDs equal their parent's ID.  The runtime tag arguments
(for example the state-summary tag placed on complex array elements) drive
subscriber behavior that is outside the scope of the claims and are not
modelled. -/
def Attribute.newElementAttribute : Attribute → Attribute
  | .mk i n t _ r c m ret u s => .mk i n t false r c m ret u s

/-- Attribute equality (`Attribute.Equals`).  Modelled from the spec:
attribute IDs are globally unique and stable, so equality compares IDs. -/
def attrEq (a b : Attribute) : Bool :=
  a.idBytes == b.idBytes

/-- Go `float64` values: finite values are `(-1)^neg * m * 2^e` exactly, plus
NaN and the two infinities. -/
inductive GoFloat where
  | finite (neg : Bool) (m : Nat) (e : Int)
  | nan
  | inf (neg : Bool)

/-- Dynamic Go values (`interface{}`) as delivered by JSON deserialization:
nil, string, int64, float64, bool, `[]interface{}` and
`map[string]interface{}` (field order kept as a list). -/
inductive Value where
  | null
  | vStr (s : List Nat)
  | vInt (i : Int)
  | vNum (f : GoFloat)
  | vBool (b : Bool)
  | seqOf (vs : List Value)
  | objOf (fields : List (List Nat × Value))

/-- Property tree node.  The Go source stores values behind a generic
capability set (`core.Property`); the Lean model is the tagged variant the
spec's design notes prescribe.  Leaves hold an optional raw value (`none` is
unassigned), containers hold children.  `touched` is the per-property dirty
flag set by mutation. -/
inductive PropNode where
  | str (attr : Attribute) (v : Option (List Nat)) (touched : Bool)
  | ref (attr : Attribute) (v : Option (List Nat)) (touched : Bool)
  | dat (attr : Attribute) (v : Option (List Nat)) (touched : Bool)
  | bin (attr : Attribute) (v : Option (List Nat)) (touched : Bool)
  | int (attr : Attribute) (v : Option Int) (touched : Bool)
  | dec (attr : Attribute) (v : Option GoFloat) (touched : Bool)
  | bool (attr : Attribute) (v : Option Bool) (touched : Bool)
  | complex (attr : Attribute) (children : List PropNode) (touched : Bool)
  | multi (attr : Attribute) (elements : List PropNode) (touched : Bool)

/-- Attribute of a property (`Property.Attribute()`). -/
def PropNode.attr : PropNode → Attribute
  | .str a _ _ => a
  | .ref a _ _ => a
  | .dat a _ _ => a
  | .bin a _ _ => a
  | .int a _ _ => a
  | .dec a _ _ => a
  | .bool a _ _ => a
  | .complex a _ _ => a
  | .multi a _ _ => a

/-- Container test (`property.(core.Container)` type assertion). -/
def PropNode.isContainer : PropNode → Bool
  | .complex _ _ _ => true
  | .multi _ _ _ => true
  | _ => false

mutual

/-- Unassigned test (`Property.IsUnassigned()`): leaves with no value set;
complex properties with all children unassigned; multi-valued properties with
zero elements. -/
def isUnassigned : PropNode → Bool
  | .str _ v _ => v.isNone
  | .ref _ v _ => v.isNone
  | .dat _ v _ => v.isNone
  | .bin _ v _ => v.isNone
  | .int _ v _ => v.isNone
  | .dec _ v _ => v.isNone
  | .bool _ v _ => v.isNone
  | .complex _ cs _ => allUnassigned cs
  | .multi _ es _ => es.isEmpty

/-- Helper of `isUnassigned` for complex children. -/
def allUnassigned : List PropNode → Bool
  | [] => true
  | c :: cs => isUnassigned c && allUnassigned cs

end

/-- 64-bit wrap-around, for Go `uint64` arithmetic. -/
def wrap64 (n : Nat) : Nat := n % 2 ^ 64

/-- One step of FNV-1a 64: xor the byte in, multiply by the FNV prime. -/
def fnvStep (h b : Nat) : Nat := wrap64 ((h ^^^ b) * 1099511628211)

/-- FNV-1a 64-bit hash of a byte sequence (`hash/fnv`'s `New64a` followed by
`Write`). -/
def fnv64 (bytes : List Nat) : Nat := bytes.foldl fnvStep 14695981039346656037

/-- Little-endian 8-byte encoding of a 64-bit value
(`binary.LittleEndian.PutUint64`). -/
def le8 (n : Nat) : List Nat :=
  [n % 256, n / 256 % 256, n / 256 ^ 2 % 256, n / 256 ^ 3 % 256,
   n / 256 ^ 4 % 256, n / 256 ^ 5 % 256, n / 256 ^ 6 % 256, n / 256 ^ 7 % 256]

/-- Two's-complement 64-bit image of an int64. -/
def int64Bits (i : Int) : Nat := (i % (2 ^ 64 : Int)).toNat

/-- Canonical bytes of a string value for hashing: lower-cased unless the
attribute is case-exact (the original case is preserved for output). -/
def canonBytes (a : Attribute) (s : List Nat) : List Nat :=
  if a.caseExact then s else s.map lowerByte

/-- Scaled comparison `num / den < 2^k` on exact naturals. -/
def ltPow2 (num den : Nat) (k : Int) : Bool :=
  if k ≥ 0 then num < 2 ^ k.toNat * den else num * 2 ^ (-k).toNat < den

/-- Fuel-bounded bit length: the number of binary digits of `m`.  The fuel
covers every magnitude a float64 computation can produce. -/
def bitLenAux : Nat → Nat → Nat
  | 0, _ => 0
  | fuel + 1, m => if m == 0 then 0 else 1 + bitLenAux fuel (m / 2)

/-- Bit length of a natural number (0 for zero). -/
def bitLen (m : Nat) : Nat := bitLenAux 1400 m

/-- Binary exponent `⌊log2 (num/den)⌋` of a positive fraction: the bit
lengths bracket it within one, and a single comparison settles it. -/
def floorLog2 (num den : Nat) : Int :=
  let c : Int := (bitLen num : Int) - (bitLen den : Int)
  if ltPow2 num den c then c - 1 else c

/-- Scaled floor `⌊(num / den) / 2^k⌋` with remainder comparison data:
returns `(q, 2*rem, den')` where `num/den = (q + rem/den') * 2^k`. -/
def scaledDivMod (num den : Nat) (k : Int) : Nat × Nat × Nat :=
  if k ≥ 0 then
    let d := den * 2 ^ k.toNat
    (num / d, 2 * (num % d), d)
  else
    let n := num * 2 ^ (-k).toNat
    (n / den, 2 * (n % den), den)

/-- Rounding a scaled quotient to the nearest integer, ties to even
(IEEE 754 round-to-nearest-even). -/
def roundNearestEven (num den : Nat) (k : Int) : Nat :=
  let (q, r2, d) := scaledDivMod num den k
  if r2 > d then q + 1
  else if r2 < d then q
  else if q % 2 == 0 then q else q + 1

/-- IEEE 754 binary64 bit image of a `GoFloat`, used for hashing decimal
properties (spec section 4.1: FNV-1a of the little-endian 8-byte
representation of the float64). -/
def floatBits (f : GoFloat) : Nat :=
  match f with
  | .nan => 0x7FF8000000000001
  | .inf false => 0x7FF0000000000000
  | .inf true => 0xFFF0000000000000
  | .finite neg m e =>
    let sign := if neg then 2 ^ 63 else 0
    if m == 0 then sign
    else
      let bl : Int := bitLen m
      let mant := roundNearestEven m 1 (bl - 53)
      let mant := if mant == 2 ^ 53 then 2 ^ 52 else mant
      let e2 := e + bl - 53 + (if mant == 2 ^ 52 && roundNearestEven m 1 (bl - 53) == 2 ^ 53 then 1 else 0)
      let biased := e2 + 52 + 1023
      if biased ≤ 0 then sign + roundNearestEven m 1 (-(e + 1074))
      else if biased ≥ 2047 then sign + 0x7FF0000000000000
      else sign + biased.toNat * 2 ^ 52 + (mant - 2 ^ 52)

/-- Right-to-left swap pass of multi.go's `Hash`: the source loop
`for i := len(hashes)-1; i > 0; i-- { if hashes[i-1] > hashes[i] { swap } }`
walks the array from its end toward the front, swapping adjacent elements
that are out of order.  `revPassGo b l` performs that walk on the reversed
list `b :: l` (head = rightmost slot), so the whole pass is
`backPass`. -/
def revPassGo (b : Nat) : List Nat → List Nat
  | [] => [b]
  | a :: rest => if a > b then a :: revPassGo b rest else b :: revPassGo a rest

/-- Backward bubble pass over a hash array, in source order. -/
def backPass (l : List Nat) : List Nat :=
  match l.reverse with
  | [] => []
  | b :: rest => (revPassGo b rest).reverse

mutual

/-- Structural hash of a property (`Property.Hash()`).  The multi-valued case
is `multi.go`'s `Hash`; the leaf and complex cases are modelled from the
spec (section 4.1 / 4.2): FNV-1a of the canonicalized string bytes, of the
little-endian 8 bytes of the int64 / float64 bits, 0 / 1 for booleans, zero
hash for unassigned, and FNV-1a over `(subAttrIndex, childHash)` pairs of
assigned children for complex properties. -/
def propHash : PropNode → Nat
  | .str a v _ => match v with | none => 0 | some s => fnv64 (canonBytes a s)
  | .ref a v _ => match v with | none => 0 | some s => fnv64 (canonBytes a s)
  | .dat a v _ => match v with | none => 0 | some s => fnv64 (canonBytes a s)
  | .bin a v _ => match v with | none => 0 | some s => fnv64 (canonBytes a s)
  | .int _ v _ => match v with | none => 0 | some i => fnv64 (le8 (int64Bits i))
  | .dec _ v _ => match v with | none => 0 | some f => fnv64 (le8 (floatBits f))
  | .bool _ v _ => match v with | none => 0 | some b => if b then 1 else 0
  | .complex _ cs _ => fnv64 (complexHashBytes cs 0)
  | .multi _ es _ =>
    if es.isEmpty then 0
    else fnv64 ((gatherHashes es []).flatMap le8)

/-- Hash gathering of `multi.go`'s `Hash`: the `ForEachChild` callback skips
unassigned elements and keeps the `hashes` array sorted by running the
backward swap pass after each append. -/
def gatherHashes : List PropNode → List Nat → List Nat
  | [], acc => acc
  | e :: rest, acc =>
    if isUnassigned e then gatherHashes rest acc
    else gatherHashes rest (backPass (acc ++ [propHash e]))

/-- Byte stream hashed by a complex property: `(subAttrIndex, childHash)`
pairs of its assigned children in declared order (spec section 4.2). -/
def complexHashBytes : List PropNode → Nat → List Nat
  | [], _ => []
  | c :: cs, i =>
    (if isUnassigned c then [] else le8 i ++ le8 (propHash c)) ++ complexHashBytes cs (i + 1)

end

/-- Hash of a multi-valued property's element list (`multi.go` `Hash`,
lines 124-160): zero when there are no elements, otherwise FNV-1a over the
little-endian bytes of the sorted assigned-element hashes. -/
def multiHash (es : List PropNode) : Nat :=
  if es.isEmpty then 0
  else fnv64 ((gatherHashes es []).flatMap le8)

/-- Structural match (`Property.Matches`).  The multi-valued case is
`multi.go` lines 112-122 (the Go type assertion on the other property would
panic on a non-multi argument under an equal attribute; that case cannot
arise and is mapped to `false`).  Other cases are modelled from the spec
(section 3.2): equal attributes and equal hashes for assigned values, or
both unassigned. -/
def matchesNode (p q : PropNode) : Bool :=
  match p with
  | .multi _ es _ =>
    if !attrEq p.attr q.attr then false
    else if es.isEmpty then
      match q with
      | .multi _ es2 _ => es2.isEmpty
      | _ => false
    else propHash p == propHash q
  | _ =>
    attrEq p.attr q.attr &&
      ((isUnassigned p && isUnassigned q) ||
       (!isUnassigned p && !isUnassigned q && propHash p == propHash q))

/-- Validation of an RFC 3339 timestamp.  Modelled from the spec
(section 4.1: "For DateTime, v is an RFC 3339 string; validation rejects
malformed stamps"); the concrete Go validation lives outside the source
slice.  The checks here are shape checks on the byte string. -/
def dateTimeValid (s : List Nat) : Bool :=
  let isDigit := fun b => 0x30 ≤ b && b ≤ 0x39
  match s with
  | y1 :: y2 :: y3 :: y4 :: d1 :: m1 :: m2 :: d2 :: dd1 :: dd2 :: t ::
    h1 :: h2 :: c1 :: mi1 :: mi2 :: c2 :: s1 :: s2 :: rest =>
    isDigit y1 && isDigit y2 && isDigit y3 && isDigit y4 && d1 == 0x2D &&
    isDigit m1 && isDigit m2 && d2 == 0x2D && isDigit dd1 && isDigit dd2 &&
    (t == 0x54 || t == 0x74) && isDigit h1 && isDigit h2 && c1 == 0x3A &&
    isDigit mi1 && isDigit mi2 && c2 == 0x3A && isDigit s1 && isDigit s2 &&
    (match rest with
     | [] => true
     | [z] => z == 0x5A || z == 0x7A
     | z1 :: z2 :: z3 :: z4 :: z5 :: [] =>
       (z1 == 0x2B || z1 == 0x2D) && isDigit z2 && isDigit z3 && z4 == 0x3A && isDigit z5
     | _ => rest.all (fun b => isDigit b || b == 0x2E || b == 0x5A || b == 0x7A ||
              b == 0x2B || b == 0x2D || b == 0x3A))
  | _ => false

/-- Validation of a base64 string, for binary properties.  Modelled from the
spec (section 4.1: "For Binary, v is a base64 string"). -/
def base64Valid (s : List Nat) : Bool :=
  s.length % 4 == 0 &&
  s.all (fun b => (0x41 ≤ b && b ≤ 0x5A) || (0x61 ≤ b && b ≤ 0x7A) ||
    (0x30 ≤ b && b ≤ 0x39) || b == 0x2B || b == 0x2F || b == 0x3D)

/-- Error modelling `errors.InvalidValue("%v is incompatible with attribute
'%s'", ...)` raised by leaf `Replace` on a type mismatch and by
`multiValuedProperty.errIncompatibleValue`. -/
def errIncompatibleValue : Err := Err.invalidValueErr "value is incompatible with attribute"

/-- Replacement on a leaf property.  Modelled from the spec (section 4.1):
type-check the value against the attribute type, fail with `invalidValue` on
mismatch, store the value and mark the property touched.  (Event emission to
subscribers is outside the scope of the claims and is not modelled.) -/
def leafReplace (p : PropNode) (v : Value) : Except Err PropNode :=
  match p, v with
  | .str a _ _, .vStr s => .ok (.str a (some s) true)
  | .ref a _ _, .vStr s => .ok (.ref a (some s) true)
  | .dat a _ _, .vStr s =>
    if dateTimeValid s then .ok (.dat a (some s) true) else .error errIncompatibleValue
  | .bin a _ _, .vStr s =>
    if base64Valid s then .ok (.bin a (some s) true) else .error errIncompatibleValue
  | .int a _ _, .vInt i => .ok (.int a (some i) true)
  | .dec a _ _, .vNum f => .ok (.dec a (some f) true)
  | .bool a _ _, .vBool b => .ok (.bool a (some b) true)
  | _, _ => .error errIncompatibleValue

mutual

/-- Unassigned child allocation for a complex property: one property per
sub-attribute, in declared order, unconditionally allocated (spec
section 3.2). -/
def newChildOf : Attribute → PropNode
  | a@(.mk _ _ t mv _ _ _ _ _ subs) =>
    if mv then .multi a [] false
    else
      match t with
      | .string => .str a none false
      | .reference => .ref a none false
      | .dateTime => .dat a none false
      | .binary => .bin a none false
      | .integer => .int a none false
      | .decimal => .dec a none false
      | .boolean => .bool a none false
      | .complex => .complex a (newComplexChildren subs) false

/-- Child list of a freshly constructed complex property. -/
def newComplexChildren : List Attribute → List PropNode
  | [] => []
  | a :: rest => newChildOf a :: newComplexChildren rest

end

mutual

/-- Deletion (`Property.Delete()`): leaves become unassigned, complex
properties delete each child, multi-valued properties clear their elements;
all become touched. -/
def deleteNode : PropNode → PropNode
  | .str a _ _ => .str a none true
  | .ref a _ _ => .ref a none true
  | .dat a _ _ => .dat a none true
  | .bin a _ _ => .bin a none true
  | .int a _ _ => .int a none true
  | .dec a _ _ => .dec a none true
  | .bool a _ _ => .bool a none true
  | .complex a cs _ => .complex a (deleteChildren cs) true
  | .multi a _ _ => .multi a [] true

/-- Child-wise deletion for complex properties. -/
def deleteChildren : List PropNode → List PropNode
  | [] => []
  | c :: cs => deleteNode c :: deleteChildren cs

end

/-- Deduplicating append of `multi.go`'s `Add`: each candidate is appended
only if it matches no existing element; every append marks the property
touched. -/
def dedupAppend (es : List PropNode) (toAdd : List PropNode) (a : Attribute) (t : Bool) :
    PropNode :=
  match toAdd with
  | [] => .multi a es t
  | c :: rest =>
    if es.any (fun e => matchesNode e c) then dedupAppend es rest a t
    else dedupAppend (es ++ [c]) rest a true

mutual

/-- Addition (`Property.Add(v)`).  For leaves this is `Replace` (spec
section 4.1); for complex properties the value must be a mapping from
sub-attribute name to value, unknown names fail with `noTarget`, and each
recognized pair delegates to the matching child's `Add` (spec section 4.2);
for multi-valued properties this is `multi.go`'s `Add` (lines 200-253).
The fuel argument is an artifact of the embedding: every recursive call
descends into the value or switches phase a bounded number of times, so any
fuel above `4 * sizeOf v + 8` behaves as the unbounded original. -/
def propAddF : Nat → PropNode → Value → Except Err PropNode
  | 0, _, _ => .error (Err.internalErr "recursion fuel exhausted")
  | fuel + 1, p, v =>
    match p with
    | .complex a cs t =>
      (match v with
       | .objOf fields => complexAddF fuel a cs t fields
       | _ => .error errIncompatibleValue)
    | .multi a es t => multiAddF fuel a es t v
    | _ => leafReplace p v

/-- Pair-by-pair delegation of complex `Add`. -/
def complexAddF : Nat → Attribute → List PropNode → Bool → List (List Nat × Value) →
    Except Err PropNode
  | 0, _, _, _, _ => .error (Err.internalErr "recursion fuel exhausted")
  | _, a, cs, t, [] => .ok (.complex a cs t)
  | fuel + 1, a, cs, t, (name, v) :: rest =>
    if cs.any (fun c => eqFold c.attr.nameBytes name) then
      match addToChild fuel cs name v with
      | .error e => .error e
      | .ok cs2 => complexAddF fuel a cs2 t rest
    else .error (Err.noTargetErr "attribute does not exist")

/-- Replacement of the named child by the result of its `Add`. -/
def addToChild : Nat → List PropNode → List Nat → Value → Except Err (List PropNode)
  | 0, _, _, _ => .error (Err.internalErr "recursion fuel exhausted")
  | _, [], _, _ => .ok []
  | fuel + 1, c :: cs, name, v =>
    if eqFold c.attr.nameBytes name then
      match propAddF fuel c v with
      | .error e => .error e
      | .ok c2 => .ok (c2 :: cs)
    else
      match addToChild fuel cs name v with
      | .error e => .error e
      | .ok cs2 => .ok (c :: cs2)

/-- Replacement (`Property.Replace(v)`): leaves per spec section 4.1;
complex properties delete all children then `Add(v)` (spec section 4.2);
multi-valued properties clear then `Add` (`multi.go` lines 255-273). -/
def propReplaceF : Nat → PropNode → Value → Except Err PropNode
  | 0, _, _ => .error (Err.internalErr "recursion fuel exhausted")
  | fuel + 1, p, v =>
    match p with
    | .complex a cs t => propAddF fuel (.complex a (deleteChildren cs) t) v
    | .multi a _ _ => multiAddF fuel a [] true v
    | _ => leafReplace p v

/-- Addition on a multi-valued property (`multi.go` `Add`, lines 200-253):
a nil value is a no-op; a sequence value is iterated (skipping nils) and any
other value is treated as a single element; each candidate becomes a fresh
element property initialized by `Replace`; a candidate is appended only when
no existing element `Matches` it. -/
def multiAddF : Nat → Attribute → List PropNode → Bool → Value → Except Err PropNode
  | 0, _, _, _, _ => .error (Err.internalErr "recursion fuel exhausted")
  | fuel + 1, a, es, t, v =>
    match v with
    | .null => .ok (.multi a es t)
    | _ =>
      match (match v with
             | .seqOf vs => candidatesF fuel a vs
             | _ =>
               match newElementPropertyF fuel a v with
               | .error e => .error e
               | .ok p0 => .ok [p0]) with
      | .error e => .error e
      | .ok toAdd =>
        if toAdd.isEmpty then .ok (.multi a es t)
        else .ok (dedupAppend es toAdd a t)

/-- Candidate construction for a sequence value: iterate, skip nils, build a
fresh element property per remaining entry. -/
def candidatesF : Nat → Attribute → List Value → Except Err (List PropNode)
  | 0, _, _ => .error (Err.internalErr "recursion fuel exhausted")
  | _, _, [] => .ok []
  | fuel + 1, a, v :: vs =>
    match v with
    | .null => candidatesF fuel a vs
    | _ =>
      match newElementPropertyF fuel a v with
      | .error e => .error e
      | .ok p0 =>
        match candidatesF fuel a vs with
        | .error e => .error e
        | .ok ps => .ok (p0 :: ps)

/-- Fresh element property of a multi-valued property (`multi.go`
`newElementProperty`, lines 339-373): dispatch on the attribute type, build
an unassigned element carrying the per-element attribute, then initialize it
with `Replace` when the single value is not nil. -/
def newElementPropertyF : Nat → Attribute → Value → Except Err PropNode
  | 0, _, _ => .error (Err.internalErr "recursion fuel exhausted")
  | fuel + 1, a, v =>
    let ea := a.newElementAttribute
    let fresh : PropNode :=
      match a.typ with
      | .string => .str ea none false
      | .integer => .int ea none false
      | .decimal => .dec ea none false
      | .boolean => .bool ea none false
      | .reference => .ref ea none false
      | .binary => .bin ea none false
      | .dateTime => .dat ea none false
      | .complex => .complex ea (newComplexChildren ea.subAttributes) false
    match v with
    | .null => .ok fresh
    | _ => propReplaceF fuel fresh v

end

mutual

/-- Size measure of a dynamic value, used to pick an ample fuel bound. -/
def valueSize : Value → Nat
  | .seqOf vs => 1 + valueListSize vs
  | .objOf fs => 1 + fieldListSize fs
  | _ => 1

/-- Size measure of a value sequence. -/
def valueListSize : List Value → Nat
  | [] => 0
  | v :: vs => valueSize v + valueListSize vs

/-- Size measure of an object field list. -/
def fieldListSize : List (List Nat × Value) → Nat
  | [] => 0
  | (_, v) :: fs => valueSize v + fieldListSize fs

end

/-- Fuel bound sufficient for `propAddF` on a given value. -/
def addFuel (v : Value) : Nat := 8 * valueSize v + 8

/-- Addition entry point (`Property.Add`). -/
def propAdd (p : PropNode) (v : Value) : Except Err PropNode := propAddF (addFuel v) p v

/-- Child count (`Container.CountChildren()`): complex properties count their
sub-properties, multi-valued properties their elements. -/
def countChildren : PropNode → Nat
  | .complex _ cs _ => cs.length
  | .multi _ es _ => es.length
  | _ => 0

/-- Result of `ChildAtIndex`: the found element, a nil return, or a Go
runtime panic (out-of-range slice index). -/
inductive ChildLookup where
  | found (p : PropNode)
  | nilResult
  | panicked

/-- Placeholder attribute for total indexing (never observed). -/
def dummyAttr : Attribute := .mk [] [] .string false false false .readWrite .default .none []

/-- Element lookup on a multi-valued property (`multi.go` `ChildAtIndex`,
lines 298-309): a non-int index returns nil; an index at or beyond the
element count returns nil; otherwise the source evaluates `p.elements[i]`,
which for a negative `i` is an out-of-range slice index and panics. -/
def childAtIndex (elements : List PropNode) (index : Value) : ChildLookup :=
  match index with
  | .vInt i =>
    if (elements.length : Int) ≤ i then .nilResult
    else if i < 0 then .panicked
    else .found (elements.getD i.toNat (.str dummyAttr none false))
  | _ => .nilResult

/-- Error returned by the undefined relational predicates on a multi-valued
property (`multi.go` `errIncompatibleOp`, lines 379-381): the source builds
it with `errors.Internal("incompatible operation")`. -/
def errIncompatibleOp : Err := Err.internalErr "incompatible operation"

/-- Predicate `StartsWith` on a multi-valued property (`multi.go`
lines 176-178): always `(false, errIncompatibleOp)`. -/
def multiStartsWith (_elements : List PropNode) (_value : List Nat) : Bool × Err :=
  (false, errIncompatibleOp)

/-- Predicate `EndsWith` on a multi-valued property (lines 180-182). -/
def multiEndsWith (_elements : List PropNode) (_value : List Nat) : Bool × Err :=
  (false, errIncompatibleOp)

/-- Predicate `Contains` on a multi-valued property (lines 184-186). -/
def multiContains (_elements : List PropNode) (_value : List Nat) : Bool × Err :=
  (false, errIncompatibleOp)

/-- Predicate `GreaterThan` on a multi-valued property (lines 188-190). -/
def multiGreaterThan (_elements : List PropNode) (_value : Value) : Bool × Err :=
  (false, errIncompatibleOp)

/-- Predicate `LessThan` on a multi-valued property (lines 192-194). -/
def multiLessThan (_elements : List PropNode) (_value : Value) : Bool × Err :=
  (false, errIncompatibleOp)

/-- Exact value of a non-negative finite float, as a numerator/denominator
pair: `m * 2^e = num / den`. -/
def valueNumDen (m : Nat) (e : Int) : Nat × Nat :=
  if e ≥ 0 then (m * 2 ^ e.toNat, 1) else (m, 2 ^ (-e).toNat)

/-- Strict fraction comparison `n1/d1 < n2/d2` on exact naturals. -/
def fracLt (a b : Nat × Nat) : Bool := a.1 * b.2 < b.1 * a.2

/-- Fraction comparison `n1/d1 ≥ n2/d2` on exact naturals. -/
def fracGe (a b : Nat × Nat) : Bool := !fracLt a b

/-- Fraction equality `n1/d1 = n2/d2` on exact naturals. -/
def fracEq (a b : Nat × Nat) : Bool := a.1 * b.2 == b.1 * a.2

/-- Nearest float64 to the exact fraction `num / den` (round to nearest, ties
to even).  Modelled from IEEE 754 binary64; subnormal underflow and overflow
to infinity are outside the magnitudes any claim touches and are not
special-cased. -/
def nearestDouble (neg : Bool) (num den : Nat) : GoFloat :=
  if num == 0 then .finite false 0 0
  else
    let l2 := floorLog2 num den
    let k := l2 - 52
    let m := roundNearestEven num den k
    if m == 2 ^ 53 then .finite neg (2 ^ 52) (k + 1) else .finite neg m k

/-- Exact value of the Go constant `1e-6` (not exactly representable; the
source comparison `abs < 1e-6` is against the rounded float64). -/
def cutoffLow : Nat × Nat :=
  match nearestDouble false 1 (10 ^ 6) with
  | .finite _ m e => valueNumDen m e
  | _ => (0, 1)

/-- Exact value of the Go constant `1e21` (exactly representable). -/
def cutoffHigh : Nat × Nat :=
  match nearestDouble false (10 ^ 21) 1 with
  | .finite _ m e => valueNumDen m e
  | _ => (0, 1)

/-- Scaled comparison `num / den < 10^k` on exact naturals. -/
def ltPow10 (num den : Nat) (k : Int) : Bool :=
  if k ≥ 0 then num < 10 ^ k.toNat * den else num * 10 ^ (-k).toNat < den

/-- Fuel-bounded count of decimal digits of `m`. -/
def digits10Aux : Nat → Nat → Nat
  | 0, _ => 0
  | fuel + 1, m => if m == 0 then 0 else 1 + digits10Aux fuel (m / 10)

/-- Decimal digit count of a natural number (0 for zero). -/
def digits10 (m : Nat) : Nat := digits10Aux 440 m

/-- Decimal exponent `⌊log10 (num/den)⌋` of a positive fraction: digit
counts bracket it within one, and a single comparison settles it. -/
def decExpOf (num den : Nat) : Int :=
  let c : Int := (digits10 num : Int) - (digits10 den : Int)
  if ltPow10 num den c then c - 1 else c

/-- Scaled decimal rounding: the integer nearest `(num/den) / 10^k`, ties to
even. -/
def roundNearestEven10 (num den : Nat) (k : Int) : Nat :=
  let (q, r2, d) :=
    if k ≥ 0 then
      let dd := den * 10 ^ k.toNat
      (num / dd, 2 * (num % dd), dd)
    else
      let n := num * 10 ^ (-k).toNat
      (n / den, 2 * (n % den), den)
  if r2 > d then q + 1
  else if r2 < d then q
  else if q % 2 == 0 then q else q + 1

/-- Rounding of `num / den` to `n` significant decimal digits: returns the
digit block `r` (`10^(n-1) ≤ r < 10^n`) and the decimal exponent `d` of the
leading digit, so the value reads `r * 10^(d - n + 1)`. -/
def roundToDigits (num den : Nat) (n : Nat) : Nat × Int :=
  let d := decExpOf num den
  let r := roundNearestEven10 num den (d - (n - 1 : Nat))
  if r == 10 ^ n then (10 ^ (n - 1), d + 1) else (r, d)

/-- Exact fraction of the decimal `r * 10^k`. -/
def decimalFrac (r : Nat) (k : Int) : Nat × Nat :=
  if k ≥ 0 then (r * 10 ^ k.toNat, 1) else (r, 10 ^ (-k).toNat)

/-- Round-trip test: does the decimal `r * 10^(d-n+1)` parse back (nearest
float64) to the exact value `num / den`? -/
def roundTrips (num den : Nat) (r : Nat) (d : Int) (n : Nat) : Bool :=
  let (pn, pd) := decimalFrac r (d - (n - 1 : Nat))
  match nearestDouble false pn pd with
  | .finite _ m2 e2 => fracEq (valueNumDen m2 e2) (num, den)
  | _ => false

/-- Search for the shortest digit count whose rounding round-trips, from `n`
upward; at most 17 significant digits are ever needed for a float64.
Modelled from Go's `strconv.AppendFloat` with precision -1 (shortest
round-tripping decimal representation). -/
def shortestFrom (num den : Nat) (n : Nat) : Nat → Nat × Nat × Int
  | 0 =>
    let (r, d) := roundToDigits num den 17
    (17, r, d)
  | fuel + 1 =>
    let (r, d) := roundToDigits num den n
    if roundTrips num den r d n then (n, r, d)
    else shortestFrom num den (n + 1) fuel

/-- Shortest round-tripping decimal digits of a positive value: digit count,
digit block, decimal exponent. -/
def shortestDigits (num den : Nat) : Nat × Nat × Int :=
  shortestFrom num den 1 17

/-- Count of decimal digits of `n` (1 for zero), without recursion. -/
def numDigits10 (n : Nat) : Nat :=
  max 1 ((List.range 30).filter (fun k => 10 ^ k ≤ n)).length

/-- Most-significant-first digit list of `r` padded/truncated to `n`
digits. -/
def digitList (n r : Nat) : List Nat :=
  (List.range n).map (fun i => r / 10 ^ (n - 1 - i) % 10)

/-- Decimal byte text of a natural number. -/
def natDecimal (n : Nat) : List Nat :=
  (digitList (numDigits10 n) n).map (fun d => 0x30 + d)

/-- Exponent field of Go's `'e'` formatting: sign then at least two
digits. -/
def expField (d : Int) : List Nat :=
  (if d ≥ 0 then [0x2B] else [0x2D]) ++
  (if d.natAbs < 10 then [0x30, 0x30 + d.natAbs] else natDecimal d.natAbs)

/-- Go `'e'` formatting with shortest precision: `-d.dddde±XX` (no fraction
part when a single digit suffices). -/
def fmtE (neg : Bool) (n r : Nat) (d : Int) : List Nat :=
  let ds := digitList n r
  (if neg then [0x2D] else []) ++
  (match ds with
   | [] => []
   | d0 :: rest =>
     (0x30 + d0) ::
     (if rest.isEmpty then [] else 0x2E :: rest.map (fun x => 0x30 + x))) ++
  [0x65] ++ expField d

/-- Go `'f'` formatting with shortest precision: plain fixed notation. -/
def fmtF (neg : Bool) (n r : Nat) (d : Int) : List Nat :=
  let ds := digitList n r
  (if neg then [0x2D] else []) ++
  (if d ≥ (n - 1 : Nat) then
    ds.map (fun x => 0x30 + x) ++ List.replicate (d - (n - 1 : Nat)).toNat 0x30
   else if d ≥ 0 then
    (ds.take (d.toNat + 1)).map (fun x => 0x30 + x) ++ [0x2E] ++
      (ds.drop (d.toNat + 1)).map (fun x => 0x30 + x)
   else
    [0x30, 0x2E] ++ List.replicate (-(d + 1)).toNat 0x30 ++ ds.map (fun x => 0x30 + x))

/-- Shortest-precision float64 text in the given format byte (`'e'` or
`'f'`), as produced by `strconv.AppendFloat(b, v, format, -1, 64)`.
Modelled from Go's strconv: shortest round-tripping digits, laid out in the
requested notation. -/
def strconvFloat (neg : Bool) (m : Nat) (e : Int) (format : Nat) : List Nat :=
  let (num, den) := valueNumDen m e
  if num == 0 then
    (if neg then [0x2D, 0x30] else [0x30]) ++
    (if format == 0x65 then [0x65] ++ expField 0 else [])
  else
    let (n, r, d) := shortestDigits num den
    if format == 0x65 then fmtE neg n r d else fmtF neg n r d

/-- Exponent cleanup of the source's `appendFloat` (lines 287-294): when the
text ends in `e-0X`, drop the padding zero (`e-09` becomes `e-9`). -/
def trimExp (b : List Nat) : List Nat :=
  match b.reverse with
  | d1 :: d2 :: d3 :: d4 :: rest =>
    if d4 == 0x65 && d3 == 0x2D && d2 == 0x30 then (d1 :: d3 :: d4 :: rest).reverse
    else b
  | _ => b

/-- Decimal emission (`appendFloat`, lines 268-296): NaN and the infinities
panic with `errors.Internal`; otherwise ES6-style notation selection — fixed
format unless `abs != 0` and `abs < 1e-6 || abs >= 1e21` — followed by the
two-digit-exponent cleanup for the exponential format. -/
def appendFloat : GoFloat → Except Err (List Nat)
  | .nan => .error (Err.internalErr "NaN is not a valid decimal")
  | .inf _ => .error (Err.internalErr "Inf is not a valid decimal")
  | .finite neg m e =>
    let abs := valueNumDen m e
    let format : Nat :=
      if abs.1 ≠ 0 ∧ (fracLt abs cutoffLow || fracGe abs cutoffHigh) then 0x65 else 0x66
    let b := strconvFloat neg m e format
    .ok (if format == 0x65 then trimExp b else b)

/-- UTF-8 decoding of the first rune of a byte list, with its encoded size:
Go's `utf8.DecodeRuneInString` (the source imports `unicode/utf8`), returning
`(0xFFFD, 1)` on every invalid encoding (overlong forms, surrogates, values
beyond U+10FFFF, truncated sequences).  On empty input Go returns size 0;
that case is unreachable in the escape loop and is mapped to size 1 to keep
the loop total. -/
def decodeRune : List Nat → Nat × Nat
  | [] => (0xFFFD, 1)
  | b0 :: rest =>
    if b0 < 0x80 then (b0, 1)
    else if b0 < 0xC2 || 0xF4 < b0 then (0xFFFD, 1)
    else
      match rest with
      | [] => (0xFFFD, 1)
      | b1 :: rest1 =>
        if b0 < 0xE0 then
          if 0x80 ≤ b1 && b1 ≤ 0xBF then ((b0 - 0xC0) * 64 + (b1 - 0x80), 2)
          else (0xFFFD, 1)
        else if b0 < 0xF0 then
          let lo := if b0 == 0xE0 then 0xA0 else 0x80
          let hi := if b0 == 0xED then 0x9F else 0xBF
          if lo ≤ b1 && b1 ≤ hi then
            match rest1 with
            | b2 :: _ =>
              if 0x80 ≤ b2 && b2 ≤ 0xBF then
                ((b0 - 0xE0) * 4096 + (b1 - 0x80) * 64 + (b2 - 0x80), 3)
              else (0xFFFD, 1)
            | [] => (0xFFFD, 1)
          else (0xFFFD, 1)
        else
          let lo := if b0 == 0xF0 then 0x90 else 0x80
          let hi := if b0 == 0xF4 then 0x8F else 0xBF
          if lo ≤ b1 && b1 ≤ hi then
            match rest1 with
            | b2 :: b3 :: _ =>
              if (0x80 ≤ b2 && b2 ≤ 0xBF) && (0x80 ≤ b3 && b3 ≤ 0xBF) then
                ((b0 - 0xF0) * 0x40000 + (b1 - 0x80) * 4096 + (b2 - 0x80) * 64 + (b3 - 0x80), 4)
              else (0xFFFD, 1)
            | _ => (0xFFFD, 1)
          else (0xFFFD, 1)

/-- Membership in `htmlSafeSet`: the HTML-safe variant of the JSON-safe
ASCII table (spec section 4.7: escape `\`, `"` and control bytes, plus the
HTML-sensitive `<`, `>`, `&`). -/
def htmlSafe (b : Nat) : Bool :=
  0x20 ≤ b && b != 0x22 && b != 0x5C && b != 0x3C && b != 0x3E && b != 0x26

/-- Escape sequence for an unsafe ASCII byte: the source writes `\` and then
either the byte itself, a short letter for newline / carriage return / tab,
or `u00XX` from the hex table. -/
def escControl (b : Nat) : List Nat :=
  match b with
  | 0x5C => [0x5C, 0x5C]
  | 0x22 => [0x5C, 0x22]
  | 0x0A => [0x5C, 0x6E]
  | 0x0D => [0x5C, 0x72]
  | 0x09 => [0x5C, 0x74]
  | _ => [0x5C, 0x75, 0x30, 0x30, hexDigit (b / 16), hexDigit (b % 16)]

/-- Pending run `value[start:i]` copied verbatim by the escape loop. -/
def sliceRun (v : List Nat) (start i : Nat) : List Nat :=
  (v.drop start).take (i - start)

/-- Escape loop of `appendString` (source lines 194-259), indexing the byte
string with a copy-pending window `[start, i)` exactly as the source does.
The fuel argument only bounds the iteration count (the index advances by at
least one per step, so `v.length + 1` suffices); when it runs out the
function behaves like the loop exit. -/
def appendLoopF : Nat → List Nat → Nat → Nat → List Nat
  | 0, v, _, start => v.drop start
  | fuel + 1, v, i, start =>
    if i < v.length then
      let b := v.getD i 0
      if b < 0x80 then
        if htmlSafe b then appendLoopF fuel v (i + 1) start
        else sliceRun v start i ++ escControl b ++ appendLoopF fuel v (i + 1) (i + 1)
      else
        let cs := decodeRune (v.drop i)
        if cs.1 == 0xFFFD && cs.2 == 1 then
          sliceRun v start i ++ [0x5C, 0x75, 0x66, 0x66, 0x66, 0x64] ++
            appendLoopF fuel v (i + 1) (i + 1)
        else if cs.1 == 0x2028 || cs.1 == 0x2029 then
          sliceRun v start i ++ [0x5C, 0x75, 0x32, 0x30, 0x32, hexDigit (cs.1 % 16)] ++
            appendLoopF fuel v (i + cs.2) (i + cs.2)
        else appendLoopF fuel v (i + cs.2) start
    else v.drop start

/-- String emission (`appendString`, lines 192-261): a double-quoted, escaped
byte string. -/
def escString (v : List Nat) : List Nat :=
  0x22 :: (appendLoopF (v.length + 1) v 0 0 ++ [0x22])

/-- Integer emission (`appendInteger`): base-10 signed text of the int64. -/
def intBytes (i : Int) : List Nat :=
  (if i < 0 then [0x2D] else []) ++ natDecimal i.natAbs

/-- Boolean emission (`appendBoolean`). -/
def boolBytes (b : Bool) : List Nat :=
  if b then strBytes "true" else strBytes "false"

/-- Splitting a byte string on a separator byte. -/
def splitOnByte (sep : Nat) : List Nat → List (List Nat)
  | [] => [[]]
  | b :: rest =>
    let r := splitOnByte sep rest
    if b == sep then [] :: r
    else
      match r with
      | [] => [[b]]
      | seg :: segs => (b :: seg) :: segs

/-- Compiled attribute path: the sequence of attribute IDs from the root to
the target (spec section 3.4). -/
abbrev PathIds := List (List Nat)

/-- Path family used for projection (`expr.PathAncestry`).  Modelled from the
spec (sections 3.4 / 4.5): a set of included compiled paths; the prefix-tree
representation of the source is modelled by the set of paths it holds. -/
structure PathFamily where
  paths : List PathIds

/-- Proper-leading-run test between compiled paths: `q` comes strictly above
`p` on the same branch. -/
def leadsTo (q p : PathIds) : Bool :=
  decide (q.length < p.length) && (p.take q.length == q)

/-- Membership query (`IsMember`): the path equals some included path. -/
def isMemberQ (f : PathFamily) (p : PathIds) : Bool :=
  f.paths.any (fun q => q == p)

/-- Ancestor query (`IsAncestor`): some included path lies strictly below
`p`. -/
def isAncestorQ (f : PathFamily) (p : PathIds) : Bool :=
  f.paths.any (fun q => leadsTo p q)

/-- Offspring query (`IsOffspring`): some included path lies strictly above
`p`. -/
def isOffspringQ (f : PathFamily) (p : PathIds) : Bool :=
  f.paths.any (fun q => leadsTo q p)

/-- Compiled path of an attribute ID (`expr.MustPath`).  Modelled from the
spec (section 4.5): attribute IDs are `URN:name.subName...`; the compiled
path lists the IDs of all ancestors, rebuilt as URN-qualified dotted
prefixes of the ID's name part (the part after the last colon). -/
def mustPath (id : List Nat) : PathIds :=
  let parts := splitOnByte 0x3A id
  let dotted := parts.getLastD []
  let base := parts.dropLast
  let segs := splitOnByte 0x2E dotted
  (List.range segs.length).map (fun i =>
    (List.intercalate [0x3A] base) ++
      (if base.isEmpty then [] else [0x3A]) ++ List.intercalate [0x2E] (segs.take (i + 1)))

/-- Parsing of a user-supplied projection path (`expr.CompilePath`).
Modelled from the spec (section 4.5 / 6.4): a dotted name sequence; an empty
segment is malformed and fails with `invalidPath`. -/
def compilePath (s : List Nat) : Except Err (List (List Nat)) :=
  let segs := splitOnByte 0x2E s
  if segs.any (fun seg => seg.isEmpty) then .error (Err.invalidPathErr "malformed path")
  else .ok segs

/-- Resolution of parsed path segments against the attribute tree of the
resource type, case-insensitively on names, producing the compiled ID path.
Modelled from the spec (section 4.5): an unresolved path fails with
`invalidPath`. -/
def resolveSegs : List Attribute → List (List Nat) → Except Err PathIds
  | _, [] => .ok []
  | attrs, seg :: rest =>
    match attrs.find? (fun a => eqFold a.nameBytes seg) with
    | none => .error (Err.invalidPathErr "path does not resolve")
    | some a =>
      match resolveSegs a.subAttributes rest with
      | .error e => .error e
      | .ok tail => .ok (a.idBytes :: tail)

/-- Family construction of `Serialize` (lines 50-68): compile each option
path and add it to the family bound to the resource type. -/
def buildFamily (rootAttrs : List Attribute) (paths : List (List Nat)) :
    Except Err PathFamily :=
  match paths with
  | [] => .ok ⟨[]⟩
  | p :: rest =>
    match compilePath p with
    | .error e => .error e
    | .ok segs =>
      match resolveSegs rootAttrs segs with
      | .error e => .error e
      | .ok ids =>
        match buildFamily rootAttrs rest with
        | .error e => .error e
        | .ok f => .ok ⟨ids :: f.paths⟩

/-- Kind of the containing property on the serializer's stack. -/
inductive ContainerKind where
  | object
  | array
deriving DecidableEq, Repr

/-- Stack frame during traversal: container kind and the index of the next
element within it. -/
structure Frame where
  kind : ContainerKind
  index : Nat
deriving DecidableEq, Repr

/-- Serializer state: output buffer, at most one of the two projection
families, and the frame stack (top at the end of the list, as the source
appends). -/
structure SState where
  out : List Nat
  includeFamily : Option PathFamily
  excludeFamily : Option PathFamily
  stack : List Frame

/-- Byte append to the output buffer. -/
def writeByte (s : SState) (b : Nat) : SState := { s with out := s.out ++ [b] }

/-- Byte-string append to the output buffer. -/
def writeBytes (s : SState) (bs : List Nat) : SState := { s with out := s.out ++ bs }

/-- Stack push (`serializer.push`): a fresh frame with index 0. -/
def pushFrame (s : SState) (k : ContainerKind) : SState :=
  { s with stack := s.stack ++ [⟨k, 0⟩] }

/-- Current frame (`serializer.current`): the top of the stack; the source
panics when the stack is empty. -/
def currentFrame (s : SState) : Option Frame := s.stack.getLast?

/-- Index increment on the top frame (`s.current().index++`). -/
def bumpFrames : List Frame → List Frame
  | [] => []
  | [f] => [⟨f.kind, f.index + 1⟩]
  | f :: rest => f :: bumpFrames rest

/-- Index increment on the serializer's current frame. -/
def bumpTop (s : SState) : SState := { s with stack := bumpFrames s.stack }

/-- Stack pop (`serializer.pop`); the source panics when the stack is
empty. -/
def popFrame (s : SState) : SState := { s with stack := s.stack.dropLast }

/-- Property-name emission (`appendPropertyName`): `"name":`. -/
def appendPropertyName (s : SState) (a : Attribute) : SState :=
  writeBytes s ([0x22] ++ a.nameBytes ++ [0x22, 0x3A])

/-- Null emission (`appendNull`). -/
def appendNull (s : SState) : SState := writeBytes s (strBytes "null")

/-- Projection gate of the serializer (`ShouldVisit`, source lines 78-115).
Write-only properties are rejected before the dispatch on the returned
disposition; `returned=default` consults the projection families through the
interned compiled path of the attribute ID.  The source's unreachable
`panic("impossible")` and `panic("invalid returned-ability")` branches
disappear in the total match. -/
def shouldVisitS (s : SState) (p : PropNode) : Bool :=
  let attr := p.attr
  if attr.mutability == .writeOnly then false
  else
    match attr.returned with
    | .always => true
    | .never => false
    | .default =>
      match s.includeFamily, s.excludeFamily with
      | none, none => !(isUnassigned p)
      | some f, _ =>
        let q := mustPath attr.idBytes
        isMemberQ f q || isAncestorQ f q || isOffspringQ f q
      | none, some f =>
        let q := mustPath attr.idBytes
        isMemberQ f q || isOffspringQ f q
    | .request =>
      match s.includeFamily with
      | some f =>
        let q := mustPath attr.idBytes
        isMemberQ f q || isAncestorQ f q || isOffspringQ f q
      | none => false

/-- Value emission of the serializer (`Visit`, source lines 117-150): a comma
when the current frame has already emitted, the property name unless inside
an array, then nothing for containers, `null` for unassigned leaves, or the
typed literal followed by the index increment.  The source reads the current
frame unconditionally and panics on an empty stack. -/
def visitS (s : SState) (p : PropNode) : Except Err SState :=
  match currentFrame s with
  | none => .error (Err.internalErr "stack is empty")
  | some fr =>
    let s := if fr.index > 0 then writeByte s 0x2C else s
    let s := if fr.kind != .array then appendPropertyName s p.attr else s
    if p.isContainer then .ok s
    else if isUnassigned p then .ok (appendNull s)
    else
      match (match p with
             | .str _ (some v) _ => .ok (escString v)
             | .ref _ (some v) _ => .ok (escString v)
             | .dat _ (some v) _ => .ok (escString v)
             | .bin _ (some v) _ => .ok (escString v)
             | .int _ (some i) _ => .ok (intBytes i)
             | .dec _ (some f) _ => appendFloat f
             | .bool _ (some b) _ => .ok (boolBytes b)
             | _ => .error (Err.internalErr "invalid type") : Except Err (List Nat)) with
      | .error e => .error e
      | .ok bs => .ok (bumpTop (writeBytes s bs))

/-- Container opening (`BeginChildren`, lines 152-163): `[` and an array
frame for multi-valued attributes (checked first), `{` and an object frame
for complex ones; anything else panics. -/
def beginChildrenS (s : SState) (a : Attribute) : Except Err SState :=
  if a.multiValued then .ok (pushFrame (writeByte s 0x5B) .array)
  else if a.typ == .complex then .ok (pushFrame (writeByte s 0x7B) .object)
  else .error (Err.internalErr "unknown container")

/-- Container closing (`EndChildren`, lines 165-179): the closing bracket,
a pop (panicking on an empty stack), and the parent frame's index increment
when a parent remains. -/
def endChildrenS (s : SState) (a : Attribute) : Except Err SState :=
  match (if a.multiValued then some (writeByte s 0x5D)
         else if a.typ == .complex then some (writeByte s 0x7D)
         else none) with
  | none => .error (Err.internalErr "unknown container")
  | some s =>
    match s.stack with
    | [] => .error (Err.internalErr "cannot pop on empty stack")
    | _ =>
      let s := popFrame s
      .ok (if s.stack.isEmpty then s else bumpTop s)

mutual

/-- Depth-first traversal of one property.  Modelled from the spec
(section 4.6): `shouldVisit` gates the whole subtree; `visit` runs before
descending; `beginChildren` / `endChildren` bracket the children of a
container; children are visited in declared / stored order; errors abort. -/
def visitNode (s : SState) (p : PropNode) : Except Err SState :=
  if shouldVisitS s p then
    match visitS s p with
    | .error e => .error e
    | .ok s1 =>
      match p with
      | .complex a cs _ =>
        (match beginChildrenS s1 a with
         | .error e => .error e
         | .ok s2 =>
           match visitChildren s2 cs with
           | .error e => .error e
           | .ok s3 => endChildrenS s3 a)
      | .multi a es _ =>
        (match beginChildrenS s1 a with
         | .error e => .error e
         | .ok s2 =>
           match visitChildren s2 es with
           | .error e => .error e
           | .ok s3 => endChildrenS s3 a)
      | _ => .ok s1
  else .ok s

/-- In-order traversal of a child list. -/
def visitChildren (s : SState) : List PropNode → Except Err SState
  | [] => .ok s
  | c :: cs =>
    match visitNode s c with
    | .error e => .error e
    | .ok s2 => visitChildren s2 cs

end

/-- Traversal entry point (`Resource.Visit`).  Modelled from the spec
(section 6.3): depth-first traversal starting from the root complex
property.  The serializer's callbacks force the root to be bracketed by
`BeginChildren` / `EndChildren` without its own `Visit` call: `Visit` reads
the current frame, which exists only after the root's frame is pushed. -/
def resourceVisit (s : SState) (root : PropNode) : Except Err SState :=
  match root with
  | .complex a cs _ =>
    (match beginChildrenS s a with
     | .error e => .error e
     | .ok s1 =>
       match visitChildren s1 cs with
       | .error e => .error e
       | .ok s2 => endChildrenS s2 a)
  | _ => .error (Err.internalErr "root is not a complex property")

/-- Serialization options (`options`): the `attributes` /
`excludedAttributes` projection paths. -/
structure SOptions where
  included : List (List Nat)
  excluded : List (List Nat)

/-- Resource: the root complex property bound to a resource type (the root
attribute's sub-attributes are the resource type's schema). -/
structure Resource where
  root : PropNode

/-- Serialization (`Serialize`, source lines 40-76): nil options default to
empty; both projection lists non-empty fail with `invalidRequest`; otherwise
at most one family is compiled (errors from path compilation propagate
as-is), the resource is traversed, and a traversal error is wrapped as
`errors.Internal`. -/
def serializeRes (r : Resource) (opts : Option SOptions) : Except Err (List Nat) :=
  let o := opts.getD ⟨[], []⟩
  if !o.included.isEmpty && !o.excluded.isEmpty then
    .error (Err.invalidRequestErr "only one of 'attributes' and 'excludedAttributes' may be used")
  else
    match (if !o.included.isEmpty then
             match buildFamily r.root.attr.subAttributes o.included with
             | .error e => .error e
             | .ok f => .ok (some f, (none : Option PathFamily))
           else if !o.excluded.isEmpty then
             match buildFamily r.root.attr.subAttributes o.excluded with
             | .error e => .error e
             | .ok f => .ok ((none : Option PathFamily), some f)
           else .ok (none, none) : Except Err (Option PathFamily × Option PathFamily)) with
    | .error e => .error e
    | .ok (inc, exc) =>
      match resourceVisit ⟨[], inc, exc, []⟩ r.root with
      | .error e => .error (Err.internalErr ("JSON serialization error: " ++ e.msg))
      | .ok s => .ok s.out

/-! Concrete fixtures: a small User-like resource type used to evaluate the
serializer on the spec's scenarios. -/

/-- Sub-attribute `name.givenName` of the fixture schema. -/
def fixGiven : Attribute :=
  .mk (strBytes "urn:t:User:name.givenName") (strBytes "givenName") .string
    false false false .readWrite .default .none []

/-- Complex attribute `name` of the fixture schema. -/
def fixName : Attribute :=
  .mk (strBytes "urn:t:User:name") (strBytes "name") .complex
    false false false .readWrite .default .none [fixGiven]

/-- String attribute `userName` of the fixture schema. -/
def fixUserName : Attribute :=
  .mk (strBytes "urn:t:User:userName") (strBytes "userName") .string
    false false false .readWrite .default .none []

/-- Root attribute of the fixture resource type. -/
def fixRoot : Attribute :=
  .mk (strBytes "urn:t:User") (strBytes "User") .complex
    false false false .readWrite .default .none [fixUserName, fixName]

/-- Fixture resource `{userName: "bob", name: {givenName: "Bob"}}`. -/
def resProjection : Resource :=
  ⟨.complex fixRoot
    [.str fixUserName (some (strBytes "bob")) false,
     .complex fixName [.str fixGiven (some (strBytes "Bob")) false] false] false⟩

/-- Path family holding the single compiled path of the `name` attribute, as
built from `excludedAttributes=name`. -/
def famName : PathFamily := ⟨[[strBytes "urn:t:User:name"]]⟩

/-- String attribute `a` with `returned=always`, for the null-emission
scenario. -/
def fixA : Attribute :=
  .mk (strBytes "urn:t:User:a") (strBytes "a") .string
    false false false .readWrite .always .none []

/-- String attribute `b` with `returned=default`. -/
def fixB : Attribute :=
  .mk (strBytes "urn:t:User:b") (strBytes "b") .string
    false false false .readWrite .default .none []

/-- Fixture resource whose first child is unassigned but always returned and
whose second child is assigned. -/
def resNullComma : Resource :=
  ⟨.complex fixRoot
    [.str fixA none false, .str fixB (some (strBytes "x")) false] false⟩

/-- Write-only string attribute (a password). -/
def fixPwd : Attribute :=
  .mk (strBytes "urn:t:User:password") (strBytes "password") .string
    false false false .writeOnly .never .none []

/-- Probe element used in witnesses. -/
def probeElem : PropNode := .str fixUserName (some (strBytes "p")) false

/-- Multi-valued string attribute `tags`. -/
def fixTags : Attribute :=
  .mk (strBytes "urn:t:User:tags") (strBytes "tags") .string
    true false false .readWrite .default .none []

/-- Expected result of adding the duplicate pair `["a", "a"]` to an empty
`tags` property: a single deduplicated element. -/
def addedTags : PropNode :=
  .multi fixTags [.str fixTags.newElementAttribute (some [97]) true] true

/-- Concrete elements used by the hash-permutation witness. -/
def elemA : PropNode := .str fixTags.newElementAttribute (some [97]) true

/-- Second concrete element for the hash-permutation witness. -/
def elemB : PropNode := .str fixTags.newElementAttribute (some [98]) true

/-! Theorems settling the claims. -/

/-- C1.  The claim says `shouldVisit(p)` under a configured `excludeFamily`
returns true iff NOT (`isMember(q) ∨ isOffspring(q)`), so that serializing
with `excluded=["name"]` contains no `"name"` key.  The source
(`ShouldVisit`, line 101) returns `IsMember(p) || IsOffspring(p)` without the
negation, so the excluded attribute is exactly what gets visited: on the
fixture resource, `shouldVisit` answers true on the excluded `name` and false
on the untouched `userName`, and the serialized output consists of the
`"name"` subtree alone. -/
theorem C1_exclude_family_inverted :
    shouldVisitS ⟨[], none, some famName, []⟩
      (.complex fixName [.str fixGiven (some (strBytes "Bob")) false] false) = true ∧
    shouldVisitS ⟨[], none, some famName, []⟩
      (.str fixUserName (some (strBytes "bob")) false) = false ∧
    serializeRes resProjection (some ⟨[], [strBytes "name"]⟩) =
      .ok (strBytes "\x7b\"name\":\x7b\"givenName\":\"Bob\"\x7d\x7d") := by
  refine ⟨by decide, by decide, by decide⟩

/-- C2.  The claim says every value emission — typed literal, `null` for an
unassigned leaf, or a closed container — increments the enclosing frame's
index, so each subsequent sibling is preceded by exactly one comma.  The
source's `Visit` (lines 130-133) returns right after `appendNull` without
running the `index++` that follows the typed-literal switch: after emitting
`null` the frame index is still 0, and the following sibling is emitted with
no comma, producing malformed JSON. -/
theorem C2_null_emission_skips_comma :
    visitS ⟨[], none, none, [⟨.object, 0⟩]⟩ (.str fixA none false) =
      .ok ⟨strBytes "\"a\":null", none, none, [⟨.object, 0⟩]⟩ ∧
    serializeRes resNullComma none = .ok (strBytes "\x7b\"a\":null\"b\":\"x\"\x7d") := by
  refine ⟨rfl, by decide⟩

/-- C5 counterexample.  The claim says the undefined relational predicates
on a multi-valued property fail with an error of kind
`incompatibleOperation`; the source's `errIncompatibleOp` (multi.go,
lines 379-381) builds the error with `errors.Internal`, so its kind is
`internal`. -/
theorem C5_counterexample :
    (multiStartsWith [] (strBytes "a")).2.kind = ErrKind.internal ∧
    (multiStartsWith [] (strBytes "a")).2.kind ≠ ErrKind.incompatibleOperation := by
  exact ⟨rfl, by decide⟩

/-- C5 as amended: for every multi-valued property, `StartsWith`, `EndsWith`,
`Contains`, `GreaterThan` and `LessThan` fail with `false` and the error
`errors.Internal("incompatible operation")` — an error of kind `internal`,
not `incompatibleOperation`. -/
theorem C5_amended_predicates_internal (es : List PropNode) (v : List Nat) (w : Value) :
    multiStartsWith es v = (false, Err.internalErr "incompatible operation") ∧
    multiEndsWith es v = (false, Err.internalErr "incompatible operation") ∧
    multiContains es v = (false, Err.internalErr "incompatible operation") ∧
    multiGreaterThan es w = (false, Err.internalErr "incompatible operation") ∧
    multiLessThan es w = (false, Err.internalErr "incompatible operation") ∧
    (Err.internalErr "incompatible operation").kind = ErrKind.internal := by
  exact ⟨rfl, rfl, rfl, rfl, rfl, rfl⟩

/-- C6.  `Serialize` fails with `invalidRequest` (and returns no bytes)
whenever both `included` and `excluded` are non-empty; with both empty it
runs with no projection family, where `returned=default` reduces to the
assignment test alone. -/
theorem C6_projection_options_exclusive (r : Resource) (inc exc : List (List Nat))
    (s : SState) (p : PropNode) (h1 : inc ≠ []) (h2 : exc ≠ [])
    (hi : s.includeFamily = none) (he : s.excludeFamily = none)
    (hr : p.attr.returned = .default) (hm : p.attr.mutability ≠ .writeOnly) :
    serializeRes r (some ⟨inc, exc⟩) =
      .error (Err.invalidRequestErr
        "only one of 'attributes' and 'excludedAttributes' may be used") ∧
    serializeRes r (some ⟨[], []⟩) =
      (match resourceVisit ⟨[], none, none, []⟩ r.root with
       | .error e => .error (Err.internalErr ("JSON serialization error: " ++ e.msg))
       | .ok st => .ok st.out) ∧
    shouldVisitS s p = !(isUnassigned p) := by
  refine ⟨?_, ?_, ?_⟩
  · simp only [serializeRes, List.isEmpty_eq_true]
    rw [if_pos]
    simp [h1, h2, List.isEmpty_eq_true]
  · simp [serializeRes]
  · simp [shouldVisitS, hr, hi, he, hm]

/-- C6 witness at a concrete resource and property. -/
theorem C6_projection_options_exclusive_witness :
    serializeRes resProjection (some ⟨[[0x61]], [[0x62]]⟩) =
      .error (Err.invalidRequestErr
        "only one of 'attributes' and 'excludedAttributes' may be used") ∧
    serializeRes resProjection (some ⟨[], []⟩) =
      (match resourceVisit ⟨[], none, none, []⟩ resProjection.root with
       | .error e => .error (Err.internalErr ("JSON serialization error: " ++ e.msg))
       | .ok st => .ok st.out) ∧
    shouldVisitS ⟨[], none, none, []⟩ probeElem = !(isUnassigned probeElem) :=
  C6_projection_options_exclusive resProjection [[0x61]] [[0x62]]
    ⟨[], none, none, []⟩ probeElem (by decide) (by decide) rfl rfl rfl (by decide)

/-- C7.  A write-only property is rejected by `shouldVisit` before the
dispatch on the returned disposition (source lines 83-85), and the traversal
therefore skips its whole subtree, leaving the serializer state — and hence
the output — unchanged, for any projection options. -/
theorem C7_write_only_never_serialized (s : SState) (p : PropNode)
    (h : p.attr.mutability = .writeOnly) :
    shouldVisitS s p = false ∧ visitNode s p = .ok s := by
  have hsv : shouldVisitS s p = false := by
    simp [shouldVisitS, h]
  exact ⟨hsv, by rw [visitNode, hsv]; simp⟩

/-- C7 witness: a write-only password property is invisible even though
assigned. -/
theorem C7_write_only_never_serialized_witness :
    shouldVisitS ⟨[], none, none, []⟩ (.str fixPwd (some (strBytes "s3cret")) false) = false ∧
    visitNode ⟨[], none, none, []⟩ (.str fixPwd (some (strBytes "s3cret")) false) =
      .ok ⟨[], none, none, []⟩ :=
  C7_write_only_never_serialized ⟨[], none, none, []⟩
    (.str fixPwd (some (strBytes "s3cret")) false) rfl

/-- Digit blocks produce decimal digits only. -/
theorem digitList_lt (n r : Nat) : ∀ x ∈ digitList n r, x < 10 := by
  intro x hx
  simp only [digitList, List.mem_map, List.mem_range] at hx
  obtain ⟨i, _, rfl⟩ := hx
  exact Nat.mod_lt _ (by omega)

/-- Fixed-notation output never contains the byte `'e'`: it is made of a
sign, decimal digits, a dot and padding zeros. -/
theorem fmtF_no_e (neg : Bool) (n r : Nat) (d : Int) :
    ∀ b ∈ fmtF neg n r d, b ≠ 0x65 := by
  have hd := digitList_lt n r
  intro b hb
  simp only [fmtF] at hb
  rcases List.mem_append.mp hb with hb | hb
  · split at hb <;> simp at hb <;> omega
  · split at hb
    · rcases List.mem_append.mp hb with hb | hb
      · simp only [List.mem_map] at hb
        obtain ⟨x, hx, rfl⟩ := hb
        have := hd x hx
        omega
      · rw [List.mem_replicate] at hb
        omega
    · split at hb
      · simp only [List.append_assoc, List.mem_append, List.mem_singleton,
          List.mem_map] at hb
        rcases hb with ⟨x, hx, rfl⟩ | rfl | ⟨x, hx, rfl⟩
        · have := hd x (List.mem_of_mem_take hx)
          omega
        · omega
        · have := hd x (List.mem_of_mem_drop hx)
          omega
      · simp only [List.append_assoc, List.mem_append, List.mem_cons,
          List.mem_replicate, List.mem_map, List.not_mem_nil, or_false] at hb
        rcases hb with (rfl | rfl) | ⟨_, rfl⟩ | ⟨x, hx, rfl⟩
        · omega
        · omega
        · omega
        · have := hd x hx
          omega

/-- Shortest fixed-notation text of a float64 never contains `'e'`. -/
theorem strconvFloat_no_e (neg : Bool) (m : Nat) (e : Int) :
    ∀ b ∈ strconvFloat neg m e 0x66, b ≠ 0x65 := by
  intro b hb
  simp only [strconvFloat] at hb
  split at hb
  · split at hb <;> simp_all <;> omega
  · simp only [show ((0x66 : Nat) == 0x65) = false from rfl, Bool.false_eq_true,
      if_false] at hb
    exact fmtF_no_e neg _ _ _ b hb

/-- C8.  Decimal emission: the serializer formats the float64 nearest to
1.5e-9 as the text `1.5e-9` (exponential notation with the leading zero of
the two-digit exponent stripped); NaN and both infinities fail with an error
of kind `internal`; and for every finite float64, exponential notation is
used exactly when the magnitude is non-zero and below the float64 value of
`1e-6` or at least `1e21` — otherwise the output is fixed-notation text
containing no exponent marker at all. -/
theorem C8_decimal_encoding :
    appendFloat (nearestDouble false 15 (10 ^ 10)) = .ok (strBytes "1.5e-9") ∧
    (appendFloat .nan = .error (Err.internalErr "NaN is not a valid decimal") ∧
     appendFloat (.inf false) = .error (Err.internalErr "Inf is not a valid decimal") ∧
     appendFloat (.inf true) = .error (Err.internalErr "Inf is not a valid decimal") ∧
     (Err.internalErr "NaN is not a valid decimal").kind = ErrKind.internal) ∧
    (∀ (neg : Bool) (m : Nat) (e : Int),
      ((valueNumDen m e).1 ≠ 0 ∧
          (fracLt (valueNumDen m e) cutoffLow || fracGe (valueNumDen m e) cutoffHigh) →
        appendFloat (.finite neg m e) = .ok (trimExp (strconvFloat neg m e 0x65))) ∧
      (¬((valueNumDen m e).1 ≠ 0 ∧
          (fracLt (valueNumDen m e) cutoffLow || fracGe (valueNumDen m e) cutoffHigh)) →
        appendFloat (.finite neg m e) = .ok (strconvFloat neg m e 0x66) ∧
        ∀ b ∈ strconvFloat neg m e 0x66, b ≠ 0x65)) := by
  refine ⟨by decide, ⟨rfl, rfl, rfl, rfl⟩, fun neg m e => ⟨fun hcond => ?_, fun hcond => ?_⟩⟩
  · simp only [appendFloat]
    rw [if_pos hcond]
    simp
  · simp only [appendFloat]
    rw [if_neg hcond]
    simp
    exact fun b hb => by simpa using strconvFloat_no_e neg m e b hb

/-- C8 witness: the fixed branch on the value 1 and the exponential branch
on the value 2^-30. -/
theorem C8_decimal_encoding_witness :
    appendFloat (.finite false 1 0) = .ok (strconvFloat false 1 0 0x66) ∧
    appendFloat (.finite false (2 ^ 52) (-82)) =
      .ok (trimExp (strconvFloat false (2 ^ 52) (-82) 0x65)) :=
  ⟨((C8_decimal_encoding.2.2 false 1 0).2 (by decide)).1,
   (C8_decimal_encoding.2.2 false (2 ^ 52) (-82)).1 (by decide)⟩

/-- C10 counterexample.  The claim says `ChildAtIndex` returns nil, without
panicking, for every out-of-bounds int including negative ones; the source
(multi.go lines 298-309) only guards `i >= len(p.elements)`, so a negative
index reaches `p.elements[i]` and panics. -/
theorem C10_counterexample :
    childAtIndex [probeElem] (.vInt (-1)) = .panicked ∧
    ChildLookup.panicked ≠ ChildLookup.nilResult := by
  exact ⟨rfl, fun h => ChildLookup.noConfusion h⟩

/-- C10 as amended: `ChildAtIndex` returns the i-th element for an int index
with `0 ≤ i < CountChildren()`, returns nil for a non-int index or an int
at or beyond the element count, and panics (out-of-range slice index) for a
negative int index. -/
theorem C10_amended_childAtIndex_total (es : List PropNode) (i : Int) :
    (0 ≤ i → i < es.length →
      childAtIndex es (.vInt i) = .found (es.getD i.toNat (.str dummyAttr none false))) ∧
    ((es.length : Int) ≤ i → childAtIndex es (.vInt i) = .nilResult) ∧
    (i < 0 → childAtIndex es (.vInt i) = .panicked) ∧
    (∀ bs, childAtIndex es (.vStr bs) = .nilResult) := by
  refine ⟨?_, ?_, ?_, fun _ => rfl⟩
  · intro h0 hlt
    simp only [childAtIndex]
    rw [if_neg (by omega), if_neg (by omega)]
  · intro hge
    simp only [childAtIndex]
    rw [if_pos hge]
  · intro hneg
    simp only [childAtIndex]
    rw [if_neg (by omega), if_pos hneg]

/-- Reflexivity of the structural match: every property matches itself
(equal attribute, equal hash, agreeing assignment status). -/
theorem matchesNode_self (p : PropNode) : matchesNode p p = true := by
  cases p
  case multi a es t =>
    simp only [matchesNode, PropNode.attr]
    cases es <;> simp [attrEq]
  all_goals simp [matchesNode, attrEq]

/-- Single-value branch of `multiAddF`: a non-nil, non-sequence value is
treated as one candidate element. -/
theorem multiAddF_single (fuel : Nat) (a : Attribute) (es : List PropNode) (t : Bool)
    (v : Value) (h1 : v ≠ .null) (h2 : ∀ ws, v ≠ .seqOf ws) :
    multiAddF (fuel + 1) a es t v =
      (match newElementPropertyF fuel a v with
       | .error e => .error e
       | .ok p0 => .ok (dedupAppend es [p0] a t)) := by
  cases v with
  | null => exact absurd rfl h1
  | seqOf ws => exact absurd rfl (h2 ws)
  | vStr s => simp only [multiAddF]; cases newElementPropertyF fuel a (.vStr s) <;> simp
  | vInt i => simp only [multiAddF]; cases newElementPropertyF fuel a (.vInt i) <;> simp
  | vNum x => simp only [multiAddF]; cases newElementPropertyF fuel a (.vNum x) <;> simp
  | vBool b => simp only [multiAddF]; cases newElementPropertyF fuel a (.vBool b) <;> simp
  | objOf fs => simp only [multiAddF]; cases newElementPropertyF fuel a (.objOf fs) <;> simp

/-- Cons step of `candidatesF` on a non-nil head. -/
theorem candidatesF_cons (fuel : Nat) (a : Attribute) (v : Value) (vs : List Value)
    (h1 : v ≠ .null) :
    candidatesF (fuel + 1) a (v :: vs) =
      (match newElementPropertyF fuel a v with
       | .error e => .error e
       | .ok p0 =>
         match candidatesF fuel a vs with
         | .error e => .error e
         | .ok ps => .ok (p0 :: ps)) := by
  cases v with
  | null => exact absurd rfl h1
  | vStr s => simp only [candidatesF]
  | vInt i => simp only [candidatesF]
  | vNum x => simp only [candidatesF]
  | vBool b => simp only [candidatesF]
  | seqOf ws => simp only [candidatesF]
  | objOf fs => simp only [candidatesF]

/-- Fuel step-up: a successful run of the mutation functions is reproduced
verbatim with one more unit of fuel, so the fuel bound of `propAdd` is
irrelevant to successful outcomes. -/
theorem addStepUp (f : Nat) :
    (∀ p v r, propAddF f p v = .ok r → propAddF (f + 1) p v = .ok r) ∧
    (∀ a cs t fs r, complexAddF f a cs t fs = .ok r → complexAddF (f + 1) a cs t fs = .ok r) ∧
    (∀ cs n v r, addToChild f cs n v = .ok r → addToChild (f + 1) cs n v = .ok r) ∧
    (∀ p v r, propReplaceF f p v = .ok r → propReplaceF (f + 1) p v = .ok r) ∧
    (∀ a es t v r, multiAddF f a es t v = .ok r → multiAddF (f + 1) a es t v = .ok r) ∧
    (∀ a vs r, candidatesF f a vs = .ok r → candidatesF (f + 1) a vs = .ok r) ∧
    (∀ a v r, newElementPropertyF f a v = .ok r → newElementPropertyF (f + 1) a v = .ok r) := by
  induction f with
  | zero =>
    refine ⟨?_, ?_, ?_, ?_, ?_, ?_, ?_⟩ <;> intros <;> rename_i h <;> first
      | exact absurd h (by simp [propAddF])
      | exact absurd h (by simp [complexAddF])
      | exact absurd h (by simp [addToChild])
      | exact absurd h (by simp [propReplaceF])
      | exact absurd h (by simp [multiAddF])
      | exact absurd h (by simp [candidatesF])
      | exact absurd h (by simp [newElementPropertyF])
  | succ f ih =>
    obtain ⟨ihA, ihC, ihT, ihR, ihM, ihK, ihN⟩ := ih
    refine ⟨?_, ?_, ?_, ?_, ?_, ?_, ?_⟩
    · -- propAddF
      intro p v r h
      cases p with
      | complex a cs t =>
        cases v with
        | objOf fields =>
          simp only [propAddF] at h ⊢
          exact ihC _ _ _ _ _ h
        | null => simp [propAddF] at h
        | vStr s => simp [propAddF] at h
        | vInt i => simp [propAddF] at h
        | vNum x => simp [propAddF] at h
        | vBool b => simp [propAddF] at h
        | seqOf ws => simp [propAddF] at h
      | multi a es t =>
        simp only [propAddF] at h ⊢
        exact ihM _ _ _ _ _ h
      | str a w t => simpa [propAddF] using h
      | ref a w t => simpa [propAddF] using h
      | dat a w t => simpa [propAddF] using h
      | bin a w t => simpa [propAddF] using h
      | int a w t => simpa [propAddF] using h
      | dec a w t => simpa [propAddF] using h
      | bool a w t => simpa [propAddF] using h
    · -- complexAddF
      intro a cs t fs r h
      cases fs with
      | nil => simpa [complexAddF] using h
      | cons hd rest =>
        obtain ⟨name, v⟩ := hd
        simp only [complexAddF] at h ⊢
        by_cases hc : cs.any (fun c => eqFold c.attr.nameBytes name) = true
        · rw [if_pos hc] at h ⊢
          cases hsub : addToChild f cs name v with
          | error e => simp [hsub] at h
          | ok cs2 =>
            rw [hsub] at h
            rw [ihT _ _ _ _ hsub]
            exact ihC _ _ _ _ _ h
        · rw [if_neg hc] at h; cases h
    · -- addToChild
      intro cs n v r h
      cases cs with
      | nil => simpa [addToChild] using h
      | cons c rest =>
        simp only [addToChild] at h ⊢
        by_cases hc : eqFold c.attr.nameBytes n = true
        · rw [if_pos hc] at h ⊢
          cases hsub : propAddF f c v with
          | error e => simp [hsub] at h
          | ok c2 => rw [hsub] at h; rw [ihA _ _ _ hsub]; exact h
        · rw [if_neg hc] at h ⊢
          cases hsub : addToChild f rest n v with
          | error e => simp [hsub] at h
          | ok cs2 => rw [hsub] at h; rw [ihT _ _ _ _ hsub]; exact h
    · -- propReplaceF
      intro p v r h
      cases p with
      | complex a cs t =>
        simp only [propReplaceF] at h ⊢
        exact ihA _ _ _ h
      | multi a es t =>
        simp only [propReplaceF] at h ⊢
        exact ihM _ _ _ _ _ h
      | str a w t => simpa [propReplaceF] using h
      | ref a w t => simpa [propReplaceF] using h
      | dat a w t => simpa [propReplaceF] using h
      | bin a w t => simpa [propReplaceF] using h
      | int a w t => simpa [propReplaceF] using h
      | dec a w t => simpa [propReplaceF] using h
      | bool a w t => simpa [propReplaceF] using h
    · -- multiAddF
      intro a es t v r h
      by_cases hnull : v = .null
      · subst hnull; simpa [multiAddF] using h
      · by_cases hseq : ∃ ws, v = .seqOf ws
        · obtain ⟨ws, rfl⟩ := hseq
          simp only [multiAddF] at h ⊢
          cases hsub : candidatesF f a ws with
          | error e => simp [hsub] at h
          | ok toAdd => rw [hsub] at h; rw [ihK _ _ _ hsub]; exact h
        · rw [multiAddF_single f a es t v hnull (fun ws hw => hseq ⟨ws, hw⟩)] at h
          rw [multiAddF_single (f + 1) a es t v hnull (fun ws hw => hseq ⟨ws, hw⟩)]
          cases hsub : newElementPropertyF f a v with
          | error e => simp [hsub] at h
          | ok p0 => rw [hsub] at h; rw [ihN _ _ _ hsub]; exact h
    · -- candidatesF
      intro a vs r h
      cases vs with
      | nil => simpa [candidatesF] using h
      | cons v rest =>
        by_cases hnull : v = .null
        · subst hnull
          simp only [candidatesF] at h ⊢
          exact ihK _ _ _ h
        · rw [candidatesF_cons f a v rest hnull] at h
          rw [candidatesF_cons (f + 1) a v rest hnull]
          cases hsub : newElementPropertyF f a v with
          | error e => simp [hsub] at h
          | ok p0 =>
            rw [hsub] at h
            rw [ihN _ _ _ hsub]
            cases hsub2 : candidatesF f a rest with
            | error e => simp [hsub2] at h
            | ok ps => rw [hsub2] at h; rw [ihK _ _ _ hsub2]; exact h
    · -- newElementPropertyF
      intro a v r h
      cases v with
      | null => simpa [newElementPropertyF] using h
      | vStr s => simp only [newElementPropertyF] at h ⊢; exact ihR _ _ _ h
      | vInt i => simp only [newElementPropertyF] at h ⊢; exact ihR _ _ _ h
      | vNum x => simp only [newElementPropertyF] at h ⊢; exact ihR _ _ _ h
      | vBool b => simp only [newElementPropertyF] at h ⊢; exact ihR _ _ _ h
      | seqOf ws => simp only [newElementPropertyF] at h ⊢; exact ihR _ _ _ h
      | objOf fs => simp only [newElementPropertyF] at h ⊢; exact ihR _ _ _ h

/-- Fuel monotonicity for `newElementPropertyF`, derived from the step-up
lemma. -/
theorem newElementPropertyF_mono {f g : Nat} (hle : f ≤ g) {a : Attribute} {v : Value}
    {r : PropNode} (h : newElementPropertyF f a v = .ok r) :
    newElementPropertyF g a v = .ok r := by
  induction g with
  | zero => exact (Nat.le_zero.mp hle) ▸ h
  | succ g ihg =>
    rcases Nat.lt_or_ge f (g + 1) with hlt | hge
    · exact (addStepUp g).2.2.2.2.2.2 _ _ _ (ihg (by omega))
    · have heq : f = g + 1 := by omega
      exact heq ▸ h

/-- Deduplication on a same-value pair: adding the sequence `[v, v]` to an
empty multi-valued property leaves exactly one element, for any fuel. -/
theorem multiAdd_pair (f : Nat) (a : Attribute) (t : Bool) (v : Value) (p2 : PropNode)
    (hv : v ≠ .null) (h : multiAddF f a [] t (.seqOf [v, v]) = .ok p2) :
    countChildren p2 = 1 := by
  cases f with
  | zero => simp [multiAddF] at h
  | succ f1 =>
    simp only [multiAddF] at h
    cases f1 with
    | zero => simp [candidatesF] at h
    | succ f2 =>
      rw [candidatesF_cons f2 a v [v] hv] at h
      cases hn1 : newElementPropertyF f2 a v with
      | error e => simp [hn1] at h
      | ok e1 =>
        simp only [hn1] at h
        cases f2 with
        | zero => simp [candidatesF] at h
        | succ f3 =>
          rw [candidatesF_cons f3 a v [] hv] at h
          cases hn2 : newElementPropertyF f3 a v with
          | error e => simp [hn2] at h
          | ok e2 =>
            simp only [hn2] at h
            have he : e2 = e1 := by
              have hlift := newElementPropertyF_mono (Nat.le_succ f3) hn2
              rw [hn1] at hlift
              exact ((Except.ok.injEq _ _).mp hlift).symm
            subst he
            cases f3 with
            | zero => simp [candidatesF] at h
            | succ f4 =>
              simp only [candidatesF, List.isEmpty_cons, Bool.false_eq_true,
                if_false] at h
              have hp2 : p2 = dedupAppend [] [e2, e2] a t := by
                cases h; rfl
              subst hp2
              simp [dedupAppend, matchesNode_self, countChildren]

/-- Hex digits of the escape table are printable ASCII. -/
theorem hexDigit_ge (n : Nat) : 0x30 ≤ hexDigit n := by
  simp only [hexDigit]
  split <;> omega

/-- Every byte of an ASCII escape sequence is printable. -/
theorem escControl_ge (b x : Nat) (hx : x ∈ escControl b) : 0x20 ≤ x := by
  have hh1 := hexDigit_ge (b / 16)
  have hh2 := hexDigit_ge (b % 16)
  simp only [escControl] at hx
  split at hx <;> simp only [List.mem_cons, List.not_mem_nil, or_false] at hx <;> omega

/-- Every decoded rune size is at least one byte. -/
theorem decodeRune_size_ge (l : List Nat) (c s : Nat) (hdec : decodeRune l = (c, s)) :
    1 ≤ s := by
  rcases l with _ | ⟨b0, rest⟩
  · cases hdec; omega
  · rcases rest with _ | ⟨b1, _ | ⟨b2, _ | ⟨b3, rest3⟩⟩⟩ <;>
      (simp only [decodeRune] at hdec
       repeat' split at hdec
       all_goals (cases hdec; omega))

/-- Bytes spanned by a successfully decoded rune with a non-ASCII leading
byte are all leading or continuation bytes, hence at least `0x80`. -/
theorem decodeRune_bytes_ge (b0 : Nat) (rest : List Nat) (c s : Nat)
    (h0 : 0x80 ≤ b0) (hdec : decodeRune (b0 :: rest) = (c, s))
    (hval : ¬(c = 0xFFFD ∧ s = 1)) :
    ∀ x ∈ (b0 :: rest).take s, 0x80 ≤ x := by
  rcases rest with _ | ⟨b1, _ | ⟨b2, _ | ⟨b3, rest3⟩⟩⟩ <;>
    (simp only [decodeRune] at hdec
     repeat' split at hdec
     all_goals cases hdec
     all_goals
       first
         | (simp at hval; done)
         | (intro x hx
            simp at hx
            try simp only [Bool.and_eq_true, decide_eq_true_eq] at *
            omega))

/-- Window extension: advancing the scan index appends the spanned bytes to
the pending run. -/
theorem sliceRun_extend (v : List Nat) (start i k : Nat) (h : start ≤ i) :
    sliceRun v start (i + k) = sliceRun v start i ++ (v.drop i).take k := by
  simp only [sliceRun]
  have h1 : i + k - start = (i - start) + k := by omega
  rw [h1, List.take_add, List.drop_drop]
  have h2 : start + (i - start) = i := by omega
  rw [h2]

/-- Terminal flush: past the end of the input the pending run covers the
whole remaining suffix. -/
theorem sliceRun_terminal (v : List Nat) (start i : Nat) (hi : v.length ≤ i) :
    v.drop start = sliceRun v start i := by
  simp only [sliceRun]
  exact (List.take_of_length_le (by rw [List.length_drop]; omega)).symm

/-- The first byte of the scan window. -/
theorem drop_head_getD (v : List Nat) (i : Nat) (h : i < v.length) :
    v.drop i = v.getD i 0 :: v.drop (i + 1) := by
  rw [List.drop_eq_getElem_cons h]
  rw [List.getD_eq_getElem?_getD, List.getElem?_eq_getElem h]
  rfl

/-- Safety invariant of the escape loop: if every byte of the pending run is
at least `0x20`, every emitted byte is at least `0x20` — control bytes are
always escaped, never copied. -/
theorem appendLoopF_ge (fuel : Nat) : ∀ (v : List Nat) (i start : Nat),
    start ≤ i → v.length - i < fuel →
    (∀ b ∈ sliceRun v start i, 0x20 ≤ b) →
    ∀ b ∈ appendLoopF fuel v i start, 0x20 ≤ b := by
  induction fuel with
  | zero => intro v i start _ hf; omega
  | succ fuel ih =>
    intro v i start hsi hf hwin b hb
    simp only [appendLoopF] at hb
    by_cases hilen : i < v.length
    · rw [if_pos hilen] at hb
      have hgetb0 : v.getD i 0 = v[i] := by
        rw [List.getD_eq_getElem?_getD, List.getElem?_eq_getElem hilen]
        rfl
      by_cases hascii : v.getD i 0 < 0x80
      · rw [if_pos hascii] at hb
        by_cases hsafe : htmlSafe (v.getD i 0) = true
        · rw [if_pos hsafe] at hb
          refine ih v (i + 1) start (by omega) (by omega) ?_ b hb
          intro x hx
          rw [sliceRun_extend v start i 1 hsi] at hx
          rcases List.mem_append.mp hx with hx | hx
          · exact hwin x hx
          · rw [drop_head_getD v i hilen] at hx
            simp only [List.take, List.take_zero, List.mem_cons,
              List.not_mem_nil, or_false] at hx
            subst hx
            simp only [htmlSafe, Bool.and_eq_true, decide_eq_true_eq] at hsafe
            exact hsafe.1.1.1.1.1
        · rw [if_neg hsafe] at hb
          rcases List.mem_append.mp hb with hb | hb
          · rcases List.mem_append.mp hb with hb | hb
            · exact hwin b hb
            · exact escControl_ge _ b hb
          · exact ih v (i + 1) (i + 1) le_rfl (by omega)
              (fun x hx => by simp [sliceRun] at hx) b hb
      · rw [if_neg hascii] at hb
        have hsize : 1 ≤ (decodeRune (v.drop i)).2 :=
          decodeRune_size_ge (v.drop i) _ _ rfl
        by_cases hinv :
            ((decodeRune (v.drop i)).1 == 0xFFFD && (decodeRune (v.drop i)).2 == 1) = true
        · rw [if_pos hinv] at hb
          rcases List.mem_append.mp hb with hb | hb
          · rcases List.mem_append.mp hb with hb | hb
            · exact hwin b hb
            · simp only [List.mem_cons, List.not_mem_nil, or_false] at hb
              omega
          · exact ih v (i + 1) (i + 1) le_rfl (by omega)
              (fun x hx => by simp [sliceRun] at hx) b hb
        · rw [if_neg hinv] at hb
          by_cases hsep :
              ((decodeRune (v.drop i)).1 == 0x2028 ||
                (decodeRune (v.drop i)).1 == 0x2029) = true
          · rw [if_pos hsep] at hb
            rcases List.mem_append.mp hb with hb | hb
            · rcases List.mem_append.mp hb with hb | hb
              · exact hwin b hb
              · have hhex := hexDigit_ge ((decodeRune (v.drop i)).1 % 16)
                simp only [List.mem_cons, List.not_mem_nil, or_false] at hb
                omega
            · exact ih v (i + (decodeRune (v.drop i)).2) (i + (decodeRune (v.drop i)).2)
                le_rfl (by omega) (fun x hx => by simp [sliceRun] at hx) b hb
          · rw [if_neg hsep] at hb
            refine ih v (i + (decodeRune (v.drop i)).2) start (by omega) (by omega) ?_ b hb
            intro x hx
            rw [sliceRun_extend v start i _ hsi] at hx
            rcases List.mem_append.mp hx with hx | hx
            · exact hwin x hx
            · have hdi := drop_head_getD v i hilen
              have hval : ¬((decodeRune (v.drop i)).1 = 0xFFFD ∧
                  (decodeRune (v.drop i)).2 = 1) := by
                simp only [Bool.and_eq_true, beq_iff_eq] at hinv
                exact hinv
              have hge := decodeRune_bytes_ge (v.getD i 0) (v.drop (i + 1))
                (decodeRune (v.drop i)).1 (decodeRune (v.drop i)).2
                (by omega) (by rw [← hdi]) hval x (by rw [← hdi]; exact hx)
              omega
    · rw [if_neg hilen] at hb
      rw [sliceRun_terminal v start i (by omega)] at hb
      exact hwin b hb

/-- The right-to-left swap pass only rearranges: its result is a permutation
of the input slot contents. -/
theorem revPassGo_perm (b : Nat) (l : List Nat) : (revPassGo b l).Perm (b :: l) := by
  induction l generalizing b with
  | nil => exact List.Perm.refl _
  | cons a rest ih =>
    simp only [revPassGo]
    by_cases h : a > b
    · rw [if_pos h]
      exact ((ih b).cons a).trans (List.Perm.swap b a rest)
    · rw [if_neg h]
      exact (ih a).cons b

/-- The swap pass sinks the new element into place: on a descending tail it
produces a descending list. -/
theorem revPassGo_sorted (b : Nat) (l : List Nat)
    (h : l.Pairwise (fun x y => y ≤ x)) :
    (revPassGo b l).Pairwise (fun x y => y ≤ x) := by
  induction l generalizing b with
  | nil => simp [revPassGo]
  | cons a rest ih =>
    rw [List.pairwise_cons] at h
    simp only [revPassGo]
    by_cases hab : a > b
    · rw [if_pos hab]
      rw [List.pairwise_cons]
      refine ⟨fun y hy => ?_, ih b h.2⟩
      rcases List.mem_cons.mp ((revPassGo_perm b rest).mem_iff.mp hy) with hyb | hyr
      · omega
      · exact h.1 y hyr
    · rw [if_neg hab]
      rw [List.pairwise_cons]
      refine ⟨fun y hy => ?_, ih a h.2⟩
      rcases List.mem_cons.mp ((revPassGo_perm a rest).mem_iff.mp hy) with hya | hyr
      · omega
      · have := h.1 y hyr; omega

/-- The backward bubble pass permutes its input. -/
theorem backPass_perm (l : List Nat) : (backPass l).Perm l := by
  rcases hl : l.reverse with _ | ⟨b, rest⟩
  · have : l = [] := by simpa using congrArg List.reverse hl
    subst this
    exact List.Perm.refl _
  · have hmatch : backPass l = (revPassGo b rest).reverse := by
      simp only [backPass, hl]
    rw [hmatch]
    have h1 : (revPassGo b rest).reverse.Perm (revPassGo b rest) := List.reverse_perm _
    have h2 : (b :: rest).Perm l := by
      rw [← hl]
      exact List.reverse_perm l
    exact (h1.trans (revPassGo_perm b rest)).trans h2

/-- The backward bubble pass after appending one element to a sorted array
yields a sorted array (insertion property of the source's inline sort). -/
theorem backPass_append_sorted (acc : List Nat) (x : Nat)
    (h : acc.Pairwise (· ≤ ·)) :
    (backPass (acc ++ [x])).Pairwise (· ≤ ·) := by
  have hrev : (acc ++ [x]).reverse = x :: acc.reverse := by simp
  have hmatch : backPass (acc ++ [x]) = (revPassGo x acc.reverse).reverse := by
    simp only [backPass, hrev]
  rw [hmatch]
  have hdesc : acc.reverse.Pairwise (fun a b => b ≤ a) :=
    List.pairwise_reverse.mpr h
  have hsorted := revPassGo_sorted x acc.reverse hdesc
  exact List.pairwise_reverse.mpr hsorted

/-- Invariant of the hash-gathering fold of multi.go's `Hash`: starting from
a sorted accumulator, the result stays sorted and is a permutation of the
accumulator followed by the hashes of the assigned elements. -/
theorem gatherHashes_sorted_perm (es : List PropNode) : ∀ acc : List Nat,
    acc.Pairwise (· ≤ ·) →
    (gatherHashes es acc).Pairwise (· ≤ ·) ∧
    (gatherHashes es acc).Perm
      (acc ++ (es.filter (fun e => !isUnassigned e)).map propHash) := by
  induction es with
  | nil => exact fun acc h => ⟨h, by simp [gatherHashes]⟩
  | cons e rest ih =>
    intro acc hacc
    by_cases he : isUnassigned e = true
    · simp only [gatherHashes, he, if_true, List.filter_cons, Bool.not_eq_true',
        Bool.not_true]
      simpa [he] using ih acc hacc
    · have heb : isUnassigned e = false := by
        cases hcase : isUnassigned e
        · rfl
        · exact absurd hcase he
      simp only [gatherHashes, heb, Bool.false_eq_true, if_false]
      have hs := backPass_append_sorted acc (propHash e) hacc
      obtain ⟨ihs, ihp⟩ := ih (backPass (acc ++ [propHash e])) hs
      refine ⟨ihs, ?_⟩
      have hacc2 : (backPass (acc ++ [propHash e])).Perm (acc ++ [propHash e]) :=
        backPass_perm _
      have hstep := hacc2.append_right
        ((rest.filter (fun e => !isUnassigned e)).map propHash)
      have hfilter : (e :: rest).filter (fun e => !isUnassigned e) =
          e :: rest.filter (fun e => !isUnassigned e) := by
        simp [List.filter_cons, heb]
      rw [hfilter]
      refine (ihp.trans hstep).trans ?_
      rw [List.append_assoc]
      exact List.Perm.refl _

/-- C3.  Multi-valued `Hash` is order-insensitive: the assigned elements'
hashes are gathered, kept sorted ascending by the inline backward swap pass,
and FNV-1a'd over their little-endian bytes, so any permutation of the
elements computes the same hash; a property with zero elements hashes to
0. -/
theorem C3_multi_hash_order_insensitive (es es2 : List PropNode)
    (hperm : es.Perm es2) :
    multiHash es = multiHash es2 ∧ multiHash ([] : List PropNode) = 0 := by
  refine ⟨?_, rfl⟩
  have hlen : es.length = es2.length := hperm.length_eq
  by_cases hemp : es.isEmpty
  · have h1 : es = [] := List.isEmpty_iff.mp hemp
    subst h1
    have h2 : es2 = [] := hperm.symm.eq_nil
    rw [h2]
  · have hemp2 : es2.isEmpty = false := by
      cases h2 : es2.isEmpty
      · rfl
      · exfalso
        have he2 : es2 = [] := List.isEmpty_iff.mp h2
        subst he2
        exact hemp (List.isEmpty_iff.mpr hperm.eq_nil)
    have hempf : es.isEmpty = false := by
      cases h1 : es.isEmpty
      · rfl
      · exact absurd h1 hemp
    simp only [multiHash, hempf, hemp2, Bool.false_eq_true, if_false]
    have g1 := gatherHashes_sorted_perm es [] List.Pairwise.nil
    have g2 := gatherHashes_sorted_perm es2 [] List.Pairwise.nil
    have hmid : ((es.filter (fun e => !isUnassigned e)).map propHash).Perm
        ((es2.filter (fun e => !isUnassigned e)).map propHash) :=
      (hperm.filter _).map _
    have hp : (gatherHashes es []).Perm (gatherHashes es2 []) := by
      refine (g1.2.trans ?_).trans g2.2.symm
      simpa using hmid
    have heq : gatherHashes es [] = gatherHashes es2 [] :=
      List.eq_of_perm_of_sorted hp g1.1 g2.1
    rw [heq]

/-- C3 witness: two concrete elements hash the same in either order. -/
theorem C3_multi_hash_order_insensitive_witness :
    multiHash [elemA, elemB] = multiHash [elemB, elemA] ∧
    multiHash ([] : List PropNode) = 0 :=
  C3_multi_hash_order_insensitive [elemA, elemB] [elemB, elemA]
    (List.Perm.swap elemB elemA [])

/-- C4.  `Add` on a multi-valued property treats a sequence element-wise and
any other non-nil value as a single element, building each candidate as a
fresh element property initialized by `Replace` and appending it only when no
existing element `Matches` it (the deduplicating append); consequently,
adding the duplicate pair `[v, v]` to an initially empty multi-valued
property leaves exactly one element. -/
theorem C4_multivalued_add_dedup (a : Attribute) (t : Bool) (v : Value) (p2 : PropNode)
    (hv : v ≠ .null) (hadd : propAdd (.multi a [] t) (.seqOf [v, v]) = .ok p2) :
    countChildren p2 = 1 ∧
    (∀ (fuel : Nat) (es : List PropNode) (t2 : Bool) (w : Value),
      w ≠ .null → (∀ ws, w ≠ .seqOf ws) →
      multiAddF (fuel + 1) a es t2 w =
        (match newElementPropertyF fuel a w with
         | .error e => .error e
         | .ok p0 => .ok (dedupAppend es [p0] a t2))) ∧
    (∀ (fuel : Nat) (es : List PropNode) (t2 : Bool) (ws : List Value),
      multiAddF (fuel + 1) a es t2 (.seqOf ws) =
        (match candidatesF fuel a ws with
         | .error e => .error e
         | .ok toAdd =>
           if toAdd.isEmpty then .ok (.multi a es t2)
           else .ok (dedupAppend es toAdd a t2))) := by
  refine ⟨?_, fun fuel es t2 w hw1 hw2 => multiAddF_single fuel a es t2 w hw1 hw2,
    fun fuel es t2 ws => by simp [multiAddF]⟩
  have h8 : addFuel (.seqOf [v, v]) ≠ 0 := by
    simp only [addFuel]; omega
  obtain ⟨m, hm⟩ := Nat.exists_eq_succ_of_ne_zero h8
  simp only [propAdd] at hadd
  rw [hm] at hadd
  simp only [propAddF] at hadd
  exact multiAdd_pair m a t v p2 hv hadd

/-- C4 witness: adding `["a", "a"]` to an empty multi-valued string property
leaves one element. -/
theorem C4_multivalued_add_dedup_witness : countChildren addedTags = 1 :=
  (C4_multivalued_add_dedup fixTags false (.vStr [97]) addedTags
    (fun h => Value.noConfusion h) (by rfl)).1

/-- C9.  String escaping: no byte below `0x20` ever reaches the output (every
control byte is emitted as a short escape or `\\u00XX`), an invalid UTF-8
byte is replaced by `\\ufffd`, and U+2028 / U+2029 are escaped as `\\u2028` /
`\\u2029` — serializing `"a\\u2028b"` yields the seven bytes `a\\u2028b`
between the quotes. -/
theorem C9_string_escape_safety (v : List Nat) :
    (∀ b ∈ escString v, 0x20 ≤ b) ∧
    escString (strBytes "a" ++ [0xE2, 0x80, 0xA8] ++ strBytes "b") =
      strBytes "\"a\\u2028b\"" ∧
    escString (strBytes "a" ++ [0xE2, 0x80, 0xA9] ++ strBytes "b") =
      strBytes "\"a\\u2029b\"" ∧
    escString [0xFF, 0x41] = strBytes "\"\\ufffdA\"" ∧
    escString [0x01, 0x0A, 0x0D, 0x09, 0x1F] = strBytes "\"\\u0001\\n\\r\\t\\u001f\"" := by
  refine ⟨?_, by decide, by decide, by decide, by decide⟩
  intro b hb
  simp only [escString, List.mem_cons, List.mem_append,
    List.not_mem_nil, or_false] at hb
  rcases hb with rfl | hb | hb
  · omega
  · exact appendLoopF_ge (v.length + 1) v 0 0 (le_refl 0) (by omega)
      (fun x hx => by simp [sliceRun] at hx) b hb
  · omega

/-- C9 witness: the escaped form of a concrete string obeys the bound. -/
theorem C9_string_escape_safety_witness : (0x20 : Nat) ≤ 0x22 :=
  (C9_string_escape_safety (strBytes "x")).1 0x22 (by decide)

/-- C10 witness at concrete indices. -/
theorem C10_amended_childAtIndex_total_witness :
    childAtIndex [probeElem] (.vInt 0) = .found probeElem ∧
    childAtIndex [probeElem] (.vInt 3) = .nilResult ∧
    childAtIndex [probeElem] (.vInt (-3)) = .panicked :=
  ⟨(C10_amended_childAtIndex_total [probeElem] 0).1 (by decide) (by decide),
   (C10_amended_childAtIndex_total [probeElem] 3).2.1 (by decide),
   (C10_amended_childAtIndex_total [probeElem] (-3)).2.2.1 (by decide)⟩

end Scim
